import Mathlib

set_option maxHeartbeats 1000000

/- Shallow embedding of the banosser batch image-processing scripts:
   scripts/process_images.js (Google GenAI backend) and the unnamed
   OpenRouter backend script.  JavaScript values are modelled by the
   inductive type JV; external effects (image download, API call,
   HTTP fetch, filesystem writes) are modelled by oracles indexed by
   the 1-based record position. -/

/-- A JavaScript value, as produced by JSON.parse plus the undefined
value returned by member access on a missing key. -/
inductive JV where
  | undefined
  | null
  | bool (b : Bool)
  | num (n : Int)
  | str (s : String)
  | arr (elems : List JV)
  | obj (fields : List (String × JV))

/-- JavaScript truthiness of a value. -/
def truthy : JV → Bool
  | .undefined => false
  | .null => false
  | .bool b => b
  | .num n => n != 0
  | .str s => s != ""
  | .arr _ => true
  | .obj _ => true

/-- First binding of a key in an object field list (JSON.parse keeps one
binding per key, so first lookup is the lookup). -/
def lookupField : List (String × JV) → String → JV
  | [], _ => .undefined
  | (k, v) :: rest, key => if k = key then v else lookupField rest key

/-- Member access a.k (or optional-chained access a?.k): undefined on
non-objects.  The one unguarded access on a possibly-null value in the
sources, item.brand in the main loops, is modelled separately as a crash
in runLoop. -/
def jget : JV → String → JV
  | .obj fs, k => lookupField fs k
  | _, _ => .undefined

/-- Indexing a?.[n], as used for json?.choices?.[0]. -/
def jsIndex : JV → Nat → JV
  | .arr xs, n =>
    match xs.get? n with
    | some v => v
    | none => .undefined
  | .str s, n =>
    match s.data.get? n with
    | some c => .str (String.mk [c])
    | none => .undefined
  | _, _ => .undefined

/-- JavaScript a || b. -/
def jsOr (a b : JV) : JV := if truthy a then a else b

/-- JavaScript strict equality of a value against a string literal. -/
def isStrEq (v : JV) (s : String) : Bool :=
  match v with
  | .str t => t == s
  | _ => false

/-- Setting a key in a field list the way the object literal
`(...item, localUpdatedFile: f)` does: an existing key keeps its
position and gets the new value, a fresh key is appended. -/
def setFieldList : List (String × JV) → String → JV → List (String × JV)
  | [], k, v => [(k, v)]
  | (k', v') :: rest, k, v =>
    if k' = k then (k', v) :: rest else (k', v') :: setFieldList rest k v

/-- Spread-and-set, modelling `(...item, key: v)`.  Items reaching this
point in the sources are objects (only objects can have a truthy
imageUrl member), so the non-object fallback is unreachable there. -/
def setField : JV → String → JV → JV
  | .obj fs, k, v => .obj (setFieldList fs k v)
  | _, k, v => .obj [(k, v)]

/-- Whether an element string of a JS array stringification is dropped
(null and undefined render as the empty string inside Array join). -/
def jvElemBlank : JV → Bool
  | .undefined => true
  | .null => true
  | _ => false

mutual

/-- JavaScript String(v) coercion, as used by the template literals
building file base names. -/
def jvToString : JV → String
  | .undefined => "undefined"
  | .null => "null"
  | .bool b => cond b "true" "false"
  | .num n => toString n
  | .str s => s
  | .arr xs => jvArrString xs
  | .obj _ => "[object Object]"

/-- Array.prototype.toString: elements joined with commas. -/
def jvArrString : List JV → String
  | [] => ""
  | v :: rest =>
    (if jvElemBlank v then "" else jvToString v)
      ++ (if rest.isEmpty then "" else ",")
      ++ jvArrString rest

end

/-- Characters kept by toSafeFilename: the class [a-z0-9._-] with the
case-insensitive flag, hence also A-Z. -/
def isSafeChar (c : Char) : Bool :=
  ('a' ≤ c && c ≤ 'z') || ('A' ≤ c && c ≤ 'Z') || ('0' ≤ c && c ≤ '9')
    || c == '.' || c == '_' || c == '-'

/-- toSafeFilename from both backends:
base.replace(/[^a-z0-9._-]/gi, "_"). -/
def toSafeFilename (base : String) : String :=
  String.mk (base.data.map (fun c => if isSafeChar c then c else '_'))

/-- content.split(/\r?\n/): break at every newline, consuming one
optional carriage return right before it. -/
def splitLinesAux : List Char → List Char → List String
  | [], acc => [String.mk acc.reverse]
  | '\r' :: '\n' :: rest, acc => String.mk acc.reverse :: splitLinesAux rest []
  | '\n' :: rest, acc => String.mk acc.reverse :: splitLinesAux rest []
  | c :: rest, acc => splitLinesAux rest (c :: acc)

/-- Split a string on /\r?\n/. -/
def splitLines (s : String) : List String :=
  splitLinesAux s.data []

/-- The per-line loop of readJsonl: JSON.parse is an external builtin
and is passed in as an oracle; a line that fails to parse is recorded
as a warning and skipped. -/
def readJsonlLines (parse : String → Option JV) : List String → List JV × List String
  | [] => ([], [])
  | l :: ls =>
    let r := readJsonlLines parse ls
    match parse l with
    | some v => (v :: r.1, r.2)
    | none => (r.1, l :: r.2)

/-- readJsonl from both backends: split the file on /\r?\n/, drop falsy
(empty) lines, then yield each line that parses, warning on the rest.
Returns (yielded values, warned lines). -/
def readJsonl (parse : String → Option JV) (content : String) : List JV × List String :=
  readJsonlLines parse ((splitLines content).filter (fun l => l != ""))

/-- Line terminators, which the dot of /(.+)$/ does not match. -/
def lineTermChar (c : Char) : Bool :=
  c == '\n' || c == '\r' || c == Char.ofNat 0x2028 || c == Char.ofNat 0x2029

/-- The character class [a-zA-Z0-9+.-] of the data-URL mime type. -/
def mimeChar (c : Char) : Bool :=
  ('a' ≤ c && c ≤ 'z') || ('A' ≤ c && c ≤ 'Z') || ('0' ≤ c && c ≤ '9')
    || c == '+' || c == '.' || c == '-'

/-- Strip a pattern from the front of a string, case-insensitively
(the /i flag), returning the rest on success. -/
def stripCI : List Char → List Char → Option (List Char)
  | [], s => some s
  | _ :: _, [] => none
  | p :: ps, c :: cs => if p.toLower = c.toLower then stripCI ps cs else none

/-- Matching of /^data:image\/[a-zA-Z0-9+.-]+;base64,(.+)$/i on a char
list, returning the capture group.  The dot does not cross line
terminators and the class cannot match the semicolon, so the greedy
run is the maximal mime run. -/
def dataUrlB64 (cs : List Char) : Option String :=
  match stripCI "data:image/".data cs with
  | none => none
  | some r1 =>
    let mime := r1.takeWhile mimeChar
    let r2 := r1.dropWhile mimeChar
    if mime.isEmpty then none
    else
      match stripCI ";base64,".data r2 with
      | none => none
      | some rest =>
        if rest.isEmpty || rest.any lineTermChar then none
        else some (String.mk rest)

/-- extractBase64FromDataUrl from the OpenRouter backend: the typeof
string guard followed by the regex match. -/
def extractBase64FromDataUrl (v : JV) : Option String :=
  match v with
  | .str s => dataUrlB64 s.data
  | _ => none

/-- An image byte buffer, tagged with its provenance: Buffer.from(v,
"base64") on a JSON value, or the body fetched from a URL.  No claim
inspects the decoded bytes themselves. -/
inductive Buf where
  | fromB64 (v : JV)
  | fetched (url : JV)

/-- Errors thrown by the OpenRouter response decoder: a failed
fetchImageAsBuffer call on a matched URL, or the final "OpenRouter
response did not include an image". -/
inductive DErr where
  | fetchFailed (url : JV)
  | noImage

/-- One entry of the documented message.images array: the body of the
for loop over images.  Returns none when the loop just moves on. -/
def imageEntryCheck (fetchOk : JV → Bool) (img : JV) : Option (Except DErr Buf) :=
  if isStrEq (jget img "type") "image_url" && truthy (jget (jget img "image_url") "url") then
    let url := jget (jget img "image_url") "url"
    some (match extractBase64FromDataUrl url with
      | some b => .ok (.fromB64 (.str b))
      | none => if fetchOk url then .ok (.fetched url) else .error (.fetchFailed url))
  else
    match img with
    | .str s =>
      match dataUrlB64 s.data with
      | some b => some (.ok (.fromB64 (.str b)))
      | none => none
    | _ => none

/-- One part of a content array: the three sequential cases of the
for loop over content parts (output_image, image_url, text).  The type
guards are mutually exclusive, so chaining the three checks equals the
source's sequential ifs. -/
def contentPartCheck (fetchOk : JV → Bool) (part : JV) : Option (Except DErr Buf) :=
  let case1 : Option (Except DErr Buf) :=
    if isStrEq (jget part "type") "output_image" then
      let base64 := jsOr (jget part "image_base64") (jsOr (jget part "b64_json")
        (jsOr (jget part "base64")
          (match jget part "data" with
           | .str s => .str s
           | _ => .null)))
      if truthy base64 then some (.ok (.fromB64 base64))
      else
        match jget part "data" with
        | .str s =>
          match dataUrlB64 s.data with
          | some b => some (.ok (.fromB64 (.str b)))
          | none => none
        | _ => none
    else none
  let case2 : Option (Except DErr Buf) :=
    if isStrEq (jget part "type") "image_url" && truthy (jget (jget part "image_url") "url") then
      let url := jget (jget part "image_url") "url"
      some (if fetchOk url then .ok (.fetched url) else .error (.fetchFailed url))
    else none
  let case3 : Option (Except DErr Buf) :=
    if isStrEq (jget part "type") "text" then
      match jget part "text" with
      | .str s =>
        match dataUrlB64 s.data with
        | some b => some (.ok (.fromB64 (.str b)))
        | none => none
      | _ => none
    else none
  (case1.orElse fun _ => case2.orElse fun _ => case3)

/-- The loop over message.images, with its early returns. -/
def imagesLoop (fetchOk : JV → Bool) : List JV → Option (Except DErr Buf)
  | [] => none
  | img :: rest =>
    match imageEntryCheck fetchOk img with
    | some r => some r
    | none => imagesLoop fetchOk rest

/-- The loop over the content array, with its early returns. -/
def contentLoop (fetchOk : JV → Bool) : List JV → Option (Except DErr Buf)
  | [] => none
  | part :: rest =>
    match contentPartCheck fetchOk part with
    | some r => some r
    | none => contentLoop fetchOk rest

/-- The final check of a string content holding a data URL. -/
def stringContentCheck (content : JV) : Option (Except DErr Buf) :=
  match content with
  | .str s =>
    match dataUrlB64 s.data with
    | some b => some (.ok (.fromB64 (.str b)))
    | none => none
  | _ => none

/-- extractImageBufferFromOpenRouterResponse, translated from the
OpenRouter backend.  fetchOk is the success oracle of
fetchImageAsBuffer. -/
def extractImageBufferFromOpenRouterResponse (fetchOk : JV → Bool) (json : JV) : Except DErr Buf :=
  let choice := jsIndex (jget json "choices") 0
  let message := jget choice "message"
  let content := jget message "content"
  let images := jget message "images"
  match (match images with
         | .arr imgs => imagesLoop fetchOk imgs
         | _ => none) with
  | some r => r
  | none =>
    match (match content with
           | .arr parts => contentLoop fetchOk parts
           | _ => none) with
    | some r => r
    | none =>
      match stringContentCheck content with
      | some r => r
      | none => .error .noImage

/-- First defined result in a list of optional results. -/
def firstSome : List (Option α) → Option α
  | [] => none
  | some a :: _ => some a
  | none :: rest => firstSome rest

/-- The ordered list of shape checks the decoder performs: every
message.images entry, then every content part, then the string
content. -/
def shapeChecks (fetchOk : JV → Bool) (json : JV) : List (Option (Except DErr Buf)) :=
  let message := jget (jsIndex (jget json "choices") 0) "message"
  let content := jget message "content"
  (match jget message "images" with
   | .arr imgs => imgs.map (imageEntryCheck fetchOk)
   | _ => [])
  ++ (match content with
      | .arr parts => parts.map (contentPartCheck fetchOk)
      | _ => [])
  ++ [stringContentCheck content]

/-- Decoder described the spec's way: a fixed sequence of shape checks
tried in order, first match wins, and the "no image" error when no
shape check matches. -/
def orSpecDecode (fetchOk : JV → Bool) (json : JV) : Except DErr Buf :=
  match firstSome (shapeChecks fetchOk json) with
  | some r => r
  | none => .error .noImage

/-- The image-extraction loop of enhanceImageWithGemini over
response.candidates?.[0]?.content?.parts. -/
def geminiPartsLoop : List JV → Option Buf
  | [] => none
  | part :: rest =>
    if truthy (jget (jget part "inlineData") "data") then
      some (.fromB64 (jget (jget part "inlineData") "data"))
    else geminiPartsLoop rest

/-- Outcome of one external API call, after response decoding:
the call itself threw, the response held no image (decode threw), or
an image buffer was produced. -/
inductive ApiResult where
  | callError
  | decodeError
  | image (b : Buf)

/-- Whether an ApiResult delivered an image. -/
def ApiResult.isImage : ApiResult → Bool
  | .image _ => true
  | _ => false

/-- Classify a Google backend call: generateContent threw (call is
none), or the parts loop found an inlineData part, or it fell through
to "Gemini did not return an image".  A truthy non-array non-string
parts value makes the for-of throw a TypeError, also a decode
failure. -/
def geminiApiResult (call : Option JV) : ApiResult :=
  match call with
  | none => .callError
  | some resp =>
    match jsOr (jget (jget (jsIndex (jget resp "candidates") 0) "content") "parts") (.arr []) with
    | .arr parts =>
      match geminiPartsLoop parts with
      | some b => .image b
      | none => .decodeError
    | _ => .decodeError

/-- Classify an OpenRouter backend call: a missing API key, a non-ok
HTTP status or a json() failure throw before decoding (call error);
otherwise the response decoder runs. -/
def openRouterApiResult (callOk : Bool) (json : JV) (fetchOk : JV → Bool) : ApiResult :=
  if callOk then
    match extractImageBufferFromOpenRouterResponse fetchOk json with
    | .ok b => .image b
    | .error _ => .decodeError
  else .callError

/-- The external world of one run: per record position (1-based),
whether downloadFile succeeds, what the API call produces, and whether
the final writeFileSync succeeds. -/
structure World where
  download : Nat → Bool
  api : Nat → ApiResult
  writeFinal : Nat → Bool

/-- A Google backend world from its oracles. -/
def googleWorld (download : Nat → Bool) (call : Nat → Option JV)
    (writeFinal : Nat → Bool) : World :=
  ⟨download, fun i => geminiApiResult (call i), writeFinal⟩

/-- An OpenRouter backend world from its oracles. -/
def openRouterWorld (download : Nat → Bool) (callOk : Nat → Bool) (json : Nat → JV)
    (fetchOk : Nat → JV → Bool) (writeFinal : Nat → Bool) : World :=
  ⟨download, fun i => openRouterApiResult (callOk i) (json i) (fetchOk i), writeFinal⟩

/-- The value of the limit variable: undefined when --limit is absent,
NaN when its argument does not parse as a number, else the number. -/
inductive JSLimit where
  | undefined
  | nan
  | num (q : Int)

/-- The guard `limit && processed >= limit`: undefined, NaN and 0 are
falsy, so they never break. -/
def limitHit : JSLimit → Nat → Bool
  | .undefined, _ => false
  | .nan, _ => false
  | .num q, p => q != 0 && decide ((p : Int) ≥ q)

/-- All steps of one record attempt succeeded: download, API call with
image in the response, final file write. -/
def stepsOk (w : World) (i : Nat) : Bool :=
  w.download i && (w.api i).isImage && w.writeFinal i

/-- Events of a run, used to state ordering and logging claims.
record i is the loop head receiving the i-th yielded value; began,
completed and fail are the three console lines of the loop body; the
download, apiCall, decode, write and append events mark the completion
of the corresponding pipeline step; manifest is the final data.json
write; crashed marks the uncaught TypeError on a null item. -/
inductive Ev where
  | record (i : Nat)
  | skippedNoUrl (i : Nat)
  | began (i : Nat)
  | download (i : Nat)
  | apiCall (i : Nat)
  | decode (i : Nat)
  | write (i : Nat) (path : String)
  | append (i : Nat)
  | completed (i : Nat)
  | fail (i : Nat)
  | crashed (i : Nat)
  | manifest (path : String)
deriving DecidableEq

/-- toSafeFilename of the template `(brand)_(name)` with the source's
fallbacks item.brand || "brand" and item.name || `item_(index)`. -/
def baseNameOf (item : JV) (i : Nat) : String :=
  toSafeFilename
    (jvToString (jsOr (jget item "brand") (.str "brand")) ++ "_"
      ++ jvToString (jsOr (jget item "name") (.str ("item_" ++ toString i))))

/-- path.join(finalDir, baseName + ".jpg"). -/
def finalFileName (fd : String) (item : JV) (i : Nat) : String :=
  fd ++ "/" ++ baseNameOf item i ++ ".jpg"

/-- The try block of one attempted record, driven by the world's
oracles; returns the emitted events and whether the record succeeded
(reached outputs.push). -/
def attemptEvents (w : World) (i : Nat) (f : String) : List Ev × Bool :=
  if w.download i then
    match w.api i with
    | .callError => ([.began i, .download i, .fail i], false)
    | .decodeError => ([.began i, .download i, .apiCall i, .fail i], false)
    | .image _ =>
      if w.writeFinal i then
        ([.began i, .download i, .apiCall i, .decode i, .write i f, .append i, .completed i], true)
      else
        ([.began i, .download i, .apiCall i, .decode i, .fail i], false)
  else ([.began i, .fail i], false)

/-- Whether a value is the JavaScript null (member access on it
throws). -/
def isNullJV : JV → Bool
  | .null => true
  | _ => false

/-- Result of the main loop: trace, outputs array, and whether an
uncaught TypeError aborted the loop. -/
structure LoopRes where
  evs : List Ev
  outs : List JV
  crash : Bool

/-- The main loop shared by both backends, from
scripts/process_images.js lines 127-161 and the OpenRouter script
lines 195-236.  index and processed are the two counters; a null item
makes the unguarded item.brand access throw outside the try, aborting
the loop. -/
def runLoop (w : World) (fd : String) (limit : JSLimit) :
    List JV → Nat → Nat → LoopRes
  | [], _, _ => ⟨[], [], false⟩
  | item :: rest, index, processed =>
    let i := index + 1
    if isNullJV item then ⟨[.record i, .crashed i], [], true⟩
    else
      if truthy (jget item "imageUrl") then
        let f := finalFileName fd item i
        let a := attemptEvents w i f
        if a.2 then
          let out := setField item "localUpdatedFile" (.str f)
          if limitHit limit (processed + 1) then
            ⟨.record i :: a.1, [out], false⟩
          else
            let r := runLoop w fd limit rest i (processed + 1)
            ⟨.record i :: a.1 ++ r.evs, out :: r.outs, r.crash⟩
        else
          let r := runLoop w fd limit rest i processed
          ⟨.record i :: a.1 ++ r.evs, r.outs, r.crash⟩
      else
        let r := runLoop w fd limit rest i processed
        ⟨.record i :: .skippedNoUrl i :: r.evs, r.outs, r.crash⟩

/-- A whole run: trace, outputs, crash flag. -/
structure RunResult where
  trace : List Ev
  outputs : List JV
  crash : Bool

/-- One run of either backend main over an already-read item list:
the loop, then the unconditional write of outputs to
path.join(finalDir, "data.json") - reached only when the loop did not
crash. -/
def runBatch (w : World) (fd : String) (limit : JSLimit) (items : List JV) : RunResult :=
  let r := runLoop w fd limit items 0 0
  if r.crash then ⟨r.evs, r.outs, true⟩
  else ⟨r.evs ++ [.manifest (fd ++ "/data.json")], r.outs, false⟩

/-- No literal null among the parsed items; the spec's data model makes
every input record an object, so this holds for every spec-conforming
input file. -/
def hasNoNull (items : List JV) : Bool :=
  items.all fun v =>
    match v with
    | .null => false
    | _ => true

/-- Classification of what the loop body did with one reached,
non-null item that had a truthy imageUrl (or was skipped without
one). -/
inductive Outcome where
  | skipped
  | failDownload
  | failApi
  | failDecode
  | failWrite
  | success
deriving DecidableEq

/-- Whether the outcome reached outputs.push. -/
def Outcome.isSucc : Outcome → Bool
  | .success => true
  | _ => false

/-- The outcome of one attempt, determined by the world alone. -/
def outcomeOf (w : World) (i : Nat) : Outcome :=
  if w.download i then
    match w.api i with
    | .callError => .failApi
    | .decodeError => .failDecode
    | .image _ => if w.writeFinal i then .success else .failWrite
  else .failDownload

/-- The events the loop body emits for one item with a given
outcome. -/
def segFor : Outcome → Nat → String → List Ev
  | .skipped, i, _ => [.skippedNoUrl i]
  | .failDownload, i, _ => [.began i, .fail i]
  | .failApi, i, _ => [.began i, .download i, .fail i]
  | .failDecode, i, _ => [.began i, .download i, .apiCall i, .fail i]
  | .failWrite, i, _ => [.began i, .download i, .apiCall i, .decode i, .fail i]
  | .success, i, f =>
    [.began i, .download i, .apiCall i, .decode i, .write i f, .append i, .completed i]

/-- The record position an event belongs to (0 for the manifest
write, which belongs to no record). -/
def evIdx : Ev → Nat
  | .record i => i
  | .skippedNoUrl i => i
  | .began i => i
  | .download i => i
  | .apiCall i => i
  | .decode i => i
  | .write i _ => i
  | .append i => i
  | .completed i => i
  | .fail i => i
  | .crashed i => i
  | .manifest _ => 0

/-- Event tests used to state the claims. -/
def isRecordEv (j : Nat) : Ev → Bool := fun e =>
  match e with
  | .record i => i == j
  | _ => false

def isSkippedEv (j : Nat) : Ev → Bool := fun e =>
  match e with
  | .skippedNoUrl i => i == j
  | _ => false

def isBeganEv (j : Nat) : Ev → Bool := fun e =>
  match e with
  | .began i => i == j
  | _ => false

def isFailEv (j : Nat) : Ev → Bool := fun e =>
  match e with
  | .fail i => i == j
  | _ => false

def isAppendAt (j : Nat) : Ev → Bool := fun e =>
  match e with
  | .append i => i == j
  | _ => false

def isWriteAt (j : Nat) (p : String) : Ev → Bool := fun e =>
  match e with
  | .write i q => i == j && q == p
  | _ => false

def isAppendEv : Ev → Bool := fun e =>
  match e with
  | .append _ => true
  | _ => false

/-- An append event of a record strictly before position j. -/
def isAppendBelow (j : Nat) : Ev → Bool := fun e =>
  match e with
  | .append i => decide (i < j)
  | _ => false

/-- The pipeline-step events of record j (loop head, download, API
call, decode, final write, manifest append), excluding pure log
lines. -/
def isStepEvOf (j : Nat) : Ev → Bool := fun e =>
  match e with
  | .record i => i == j
  | .download i => i == j
  | .apiCall i => i == j
  | .decode i => i == j
  | .write i _ => i == j
  | .append i => i == j
  | _ => false

/-- Trace queries. -/
def recordIn (tr : List Ev) (j : Nat) : Bool := tr.any (isRecordEv j)

def skippedIn (tr : List Ev) (j : Nat) : Bool := tr.any (isSkippedEv j)

def beganIn (tr : List Ev) (j : Nat) : Bool := tr.any (isBeganEv j)

def failIn (tr : List Ev) (j : Nat) : Bool := tr.any (isFailEv j)

def appendIn (tr : List Ev) (j : Nat) : Bool := tr.any (isAppendAt j)

def writeIn (tr : List Ev) (j : Nat) (p : String) : Bool := tr.any (isWriteAt j p)

def recordCount (tr : List Ev) (j : Nat) : Nat := tr.countP (isRecordEv j)

def beganCount (tr : List Ev) (j : Nat) : Nat := tr.countP (isBeganEv j)

def appendTotal (tr : List Ev) : Nat := tr.countP isAppendEv

def appendsBelow (tr : List Ev) (j : Nat) : Nat := tr.countP (isAppendBelow j)

def itemSteps (tr : List Ev) (j : Nat) : List Ev := tr.filter (isStepEvOf j)

/-- The canonical pipeline order of record j: loop head, download,
API call, decode, final write, manifest append. -/
def canonSteps (j : Nat) (p : String) : List Ev :=
  [.record j, .download j, .apiCall j, .decode j, .write j p, .append j]

/-- A world where every download fails (used to exercise the failure
path on concrete runs). -/
def c1W : World := ⟨fun _ => false, fun _ => .callError, fun _ => false⟩

/-- A world where every step of every record succeeds. -/
def okW : World := ⟨fun _ => true, fun _ => .image (.fromB64 (.str "QUJD")), fun _ => true⟩

/-- A world where record 2 fails its API call and everything else
succeeds. -/
def mixW : World :=
  ⟨fun _ => true, fun i => if i = 2 then .callError else .image (.fromB64 (.str "QUJD")),
    fun _ => true⟩

/-- A well-formed input record with brand, name and imageUrl. -/
def c7Item : JV :=
  .obj [("brand", .str "Acme"), ("name", .str "No 5"),
    ("imageUrl", .str "http://img.example/a.jpg")]

/-- A one-record batch. -/
def oneItem : List JV := [c7Item]

/-- A two-record batch with imageUrl fields only. -/
def twoItems : List JV :=
  [.obj [("imageUrl", .str "u1")], .obj [("imageUrl", .str "u2")]]

/-- A two-record batch used for the failure-path run. -/
def c1Items : List JV :=
  [.obj [("imageUrl", .str "http://a.example/1.jpg")],
    .obj [("imageUrl", .str "http://a.example/2.jpg")]]

/-- A record without an imageUrl field. -/
def skipItem : JV := .obj [("brand", .str "B")]

/-- A batch holding only the record without imageUrl. -/
def skipItems : List JV := [skipItem]

/-- An input record that already carries a localUpdatedFile passthrough
field. -/
def c3Item : JV := .obj [("imageUrl", .str "http://u"), ("localUpdatedFile", .str "old")]

/-- A content part of type text holding a data URL. -/
def c4TextPart : JV := .obj [("type", .str "text"), ("text", .str "data:image/png;base64,QUJD")]

/-- An OpenRouter response whose images entry holds an http URL and
whose content holds a text part with a data URL. -/
def c4Json : JV :=
  .obj [("choices", .arr [.obj [("message", .obj
    [("images", .arr [.obj [("type", .str "image_url"),
        ("image_url", .obj [("url", .str "https://img.example/x.png")])]]),
      ("content", .arr [c4TextPart])])]])]

/-- A concrete JSON.parse oracle for the readJsonl witness. -/
def c8Parse : String → Option JV := fun s => if s == "ok" then some (.obj []) else none

/-- A JSONL file with two good lines, one bad line and one empty
line. -/
def c8Content : String := "ok" ++ "\n" ++ "bad" ++ "\n" ++ "\n" ++ "ok"

theorem Outcome.isSucc_iff (o : Outcome) : o.isSucc = true ↔ o = .success := by
  cases o <;> simp [Outcome.isSucc]

theorem outcomeOf_ne_skipped (w : World) (i : Nat) : outcomeOf w i ≠ .skipped := by
  unfold outcomeOf
  cases hd : w.download i with
  | false => simp
  | true =>
    cases ha : w.api i with
    | callError => simp
    | decodeError => simp
    | image b => cases hw : w.writeFinal i <;> simp

theorem outcomeOf_success_iff (w : World) (i : Nat) :
    outcomeOf w i = .success ↔ stepsOk w i = true := by
  unfold outcomeOf stepsOk
  cases hd : w.download i with
  | false => simp
  | true =>
    cases ha : w.api i with
    | callError => simp [ApiResult.isImage]
    | decodeError => simp [ApiResult.isImage]
    | image b => cases hw : w.writeFinal i <;> simp [ApiResult.isImage]

theorem attemptEvents_eq (w : World) (i : Nat) (f : String) :
    attemptEvents w i f = (segFor (outcomeOf w i) i f, (outcomeOf w i).isSucc) := by
  unfold attemptEvents outcomeOf
  cases hd : w.download i with
  | false => simp [segFor, Outcome.isSucc]
  | true =>
    cases ha : w.api i with
    | callError => simp [segFor, Outcome.isSucc]
    | decodeError => simp [segFor, Outcome.isSucc]
    | image b => cases hw : w.writeFinal i <;> simp [segFor, Outcome.isSucc]

theorem segFor_idx (o : Outcome) (i : Nat) (f : String) :
    ∀ e ∈ segFor o i f, evIdx e = i := by
  cases o <;> (intro e he; fin_cases he <;> rfl)

theorem runLoop_nil (w : World) (fd : String) (limit : JSLimit) (index p : Nat) :
    runLoop w fd limit [] index p = ⟨[], [], false⟩ := rfl

theorem runLoop_cons_null (w : World) (fd : String) (limit : JSLimit)
    (item : JV) (rest : List JV) (index p : Nat) (hn : isNullJV item = true) :
    runLoop w fd limit (item :: rest) index p =
      ⟨[.record (index + 1), .crashed (index + 1)], [], true⟩ := by
  simp only [runLoop]
  simp [hn]

theorem runLoop_cons_skip (w : World) (fd : String) (limit : JSLimit)
    (item : JV) (rest : List JV) (index p : Nat)
    (hn : isNullJV item = false) (hu : truthy (jget item "imageUrl") = false) :
    runLoop w fd limit (item :: rest) index p =
      ⟨.record (index + 1) :: .skippedNoUrl (index + 1)
          :: (runLoop w fd limit rest (index + 1) p).evs,
        (runLoop w fd limit rest (index + 1) p).outs,
        (runLoop w fd limit rest (index + 1) p).crash⟩ := by
  simp only [runLoop]
  simp [hn, hu]

theorem runLoop_cons_fail (w : World) (fd : String) (limit : JSLimit)
    (item : JV) (rest : List JV) (index p : Nat)
    (hn : isNullJV item = false) (hu : truthy (jget item "imageUrl") = true)
    (ho : (outcomeOf w (index + 1)).isSucc = false) :
    runLoop w fd limit (item :: rest) index p =
      ⟨.record (index + 1)
          :: segFor (outcomeOf w (index + 1)) (index + 1) (finalFileName fd item (index + 1))
          ++ (runLoop w fd limit rest (index + 1) p).evs,
        (runLoop w fd limit rest (index + 1) p).outs,
        (runLoop w fd limit rest (index + 1) p).crash⟩ := by
  simp only [runLoop]
  simp [hn, hu, attemptEvents_eq, ho]

theorem runLoop_cons_succ_break (w : World) (fd : String) (limit : JSLimit)
    (item : JV) (rest : List JV) (index p : Nat)
    (hn : isNullJV item = false) (hu : truthy (jget item "imageUrl") = true)
    (ho : outcomeOf w (index + 1) = .success) (hl : limitHit limit (p + 1) = true) :
    runLoop w fd limit (item :: rest) index p =
      ⟨.record (index + 1)
          :: segFor .success (index + 1) (finalFileName fd item (index + 1)),
        [setField item "localUpdatedFile" (.str (finalFileName fd item (index + 1)))],
        false⟩ := by
  simp only [runLoop]
  simp [hn, hu, attemptEvents_eq, ho, hl, Outcome.isSucc]

theorem runLoop_cons_succ_cont (w : World) (fd : String) (limit : JSLimit)
    (item : JV) (rest : List JV) (index p : Nat)
    (hn : isNullJV item = false) (hu : truthy (jget item "imageUrl") = true)
    (ho : outcomeOf w (index + 1) = .success) (hl : limitHit limit (p + 1) = false) :
    runLoop w fd limit (item :: rest) index p =
      ⟨.record (index + 1)
          :: segFor .success (index + 1) (finalFileName fd item (index + 1))
          ++ (runLoop w fd limit rest (index + 1) (p + 1)).evs,
        setField item "localUpdatedFile" (.str (finalFileName fd item (index + 1)))
          :: (runLoop w fd limit rest (index + 1) (p + 1)).outs,
        (runLoop w fd limit rest (index + 1) (p + 1)).crash⟩ := by
  simp only [runLoop]
  simp [hn, hu, attemptEvents_eq, ho, hl, Outcome.isSucc]

theorem runLoop_idx_lt (w : World) (fd : String) (limit : JSLimit) :
    ∀ (items : List JV) (index p : Nat),
      ∀ e ∈ (runLoop w fd limit items index p).evs, index < evIdx e := by
  intro items
  induction items with
  | nil =>
    intro index p e he
    rw [runLoop_nil] at he
    simp at he
  | cons item rest ih =>
    intro index p e he
    by_cases hn : isNullJV item = true
    · rw [runLoop_cons_null w fd limit item rest index p hn] at he
      fin_cases he <;> simp [evIdx]
    · rw [Bool.not_eq_true] at hn
      by_cases hu : truthy (jget item "imageUrl") = true
      · by_cases ho : outcomeOf w (index + 1) = .success
        · by_cases hl : limitHit limit (p + 1) = true
          · rw [runLoop_cons_succ_break w fd limit item rest index p hn hu ho hl] at he
            rcases List.mem_cons.mp he with rfl | he
            · simp [evIdx]
            · have := segFor_idx .success (index + 1)
                (finalFileName fd item (index + 1)) e he
              omega
          · rw [Bool.not_eq_true] at hl
            rw [runLoop_cons_succ_cont w fd limit item rest index p hn hu ho hl] at he
            rcases List.mem_cons.mp he with rfl | he
            · simp [evIdx]
            · rcases List.mem_append.mp he with he | he
              · have := segFor_idx .success (index + 1)
                  (finalFileName fd item (index + 1)) e he
                omega
              · have := ih (index + 1) (p + 1) e he
                omega
        · have ho' : (outcomeOf w (index + 1)).isSucc = false := by
            rcases h : (outcomeOf w (index + 1)).isSucc with _ | _
            · rfl
            · exact absurd ((Outcome.isSucc_iff _).mp h) ho
          rw [runLoop_cons_fail w fd limit item rest index p hn hu ho'] at he
          rcases List.mem_cons.mp he with rfl | he
          · simp [evIdx]
          · rcases List.mem_append.mp he with he | he
            · have := segFor_idx (outcomeOf w (index + 1)) (index + 1)
                (finalFileName fd item (index + 1)) e he
              omega
            · have := ih (index + 1) p e he
              omega
      · rw [Bool.not_eq_true] at hu
        rw [runLoop_cons_skip w fd limit item rest index p hn hu] at he
        rcases List.mem_cons.mp he with rfl | he
        · simp [evIdx]
        · rcases List.mem_cons.mp he with rfl | he
          · simp [evIdx]
          · have := ih (index + 1) p e he
            omega

theorem isRecordEv_idx (j : Nat) (e : Ev) (h : isRecordEv j e = true) : evIdx e = j := by
  cases e <;> simp_all [isRecordEv, evIdx]

theorem isSkippedEv_idx (j : Nat) (e : Ev) (h : isSkippedEv j e = true) : evIdx e = j := by
  cases e <;> simp_all [isSkippedEv, evIdx]

theorem isBeganEv_idx (j : Nat) (e : Ev) (h : isBeganEv j e = true) : evIdx e = j := by
  cases e <;> simp_all [isBeganEv, evIdx]

theorem isFailEv_idx (j : Nat) (e : Ev) (h : isFailEv j e = true) : evIdx e = j := by
  cases e <;> simp_all [isFailEv, evIdx]

theorem isAppendAt_idx (j : Nat) (e : Ev) (h : isAppendAt j e = true) : evIdx e = j := by
  cases e <;> simp_all [isAppendAt, evIdx]

theorem isWriteAt_idx (j : Nat) (p : String) (e : Ev) (h : isWriteAt j p e = true) :
    evIdx e = j := by
  cases e <;> simp_all [isWriteAt, evIdx]

theorem isStepEvOf_idx (j : Nat) (e : Ev) (h : isStepEvOf j e = true) : evIdx e = j := by
  cases e <;> simp_all [isStepEvOf, evIdx]

theorem isAppendBelow_idx (j : Nat) (e : Ev) (h : isAppendBelow j e = true) : evIdx e < j := by
  cases e <;> simp_all [isAppendBelow, evIdx]

theorem runLoop_any_low (w : World) (fd : String) (limit : JSLimit)
    (items : List JV) (index p j : Nat) (P : Ev → Bool)
    (hP : ∀ e, P e = true → evIdx e = j) (hj : j ≤ index) :
    (runLoop w fd limit items index p).evs.any P = false := by
  rw [List.any_eq_false]
  intro e he hPe
  have h1 := runLoop_idx_lt w fd limit items index p e he
  have h2 := hP e hPe
  omega

theorem runLoop_countP_low (w : World) (fd : String) (limit : JSLimit)
    (items : List JV) (index p j : Nat) (P : Ev → Bool)
    (hP : ∀ e, P e = true → evIdx e = j) (hj : j ≤ index) :
    (runLoop w fd limit items index p).evs.countP P = 0 := by
  rw [List.countP_eq_zero]
  intro e he hPe
  have h1 := runLoop_idx_lt w fd limit items index p e he
  have h2 := hP e hPe
  omega

theorem runLoop_filter_low (w : World) (fd : String) (limit : JSLimit)
    (items : List JV) (index p j : Nat) (P : Ev → Bool)
    (hP : ∀ e, P e = true → evIdx e = j) (hj : j ≤ index) :
    (runLoop w fd limit items index p).evs.filter P = [] := by
  rw [List.filter_eq_nil_iff]
  intro e he hPe
  have h1 := runLoop_idx_lt w fd limit items index p e he
  have h2 := hP e hPe
  omega

theorem runLoop_appendsBelow_low (w : World) (fd : String) (limit : JSLimit)
    (items : List JV) (index p j : Nat) (hj : j ≤ index + 1) :
    (runLoop w fd limit items index p).evs.countP (isAppendBelow j) = 0 := by
  rw [List.countP_eq_zero]
  intro e he hPe
  have h1 := runLoop_idx_lt w fd limit items index p e he
  have h2 := isAppendBelow_idx j e hPe
  omega

theorem runBatch_outputs (w : World) (fd : String) (limit : JSLimit) (items : List JV) :
    (runBatch w fd limit items).outputs = (runLoop w fd limit items 0 0).outs := by
  by_cases h : (runLoop w fd limit items 0 0).crash = true <;> simp [runBatch, h]

theorem runBatch_crash (w : World) (fd : String) (limit : JSLimit) (items : List JV) :
    (runBatch w fd limit items).crash = (runLoop w fd limit items 0 0).crash := by
  by_cases h : (runLoop w fd limit items 0 0).crash = true <;> simp [runBatch, h]

theorem runBatch_any (w : World) (fd : String) (limit : JSLimit) (items : List JV)
    (P : Ev → Bool) (hP : ∀ q, P (.manifest q) = false) :
    (runBatch w fd limit items).trace.any P = (runLoop w fd limit items 0 0).evs.any P := by
  by_cases h : (runLoop w fd limit items 0 0).crash = true <;>
    simp [runBatch, h, List.any_append, hP]

theorem runBatch_countP (w : World) (fd : String) (limit : JSLimit) (items : List JV)
    (P : Ev → Bool) (hP : ∀ q, P (.manifest q) = false) :
    (runBatch w fd limit items).trace.countP P
      = (runLoop w fd limit items 0 0).evs.countP P := by
  by_cases h : (runLoop w fd limit items 0 0).crash = true <;>
    simp [runBatch, h, List.countP_append, List.countP_cons, hP]

theorem runBatch_filter (w : World) (fd : String) (limit : JSLimit) (items : List JV)
    (P : Ev → Bool) (hP : ∀ q, P (.manifest q) = false) :
    (runBatch w fd limit items).trace.filter P
      = (runLoop w fd limit items 0 0).evs.filter P := by
  by_cases h : (runLoop w fd limit items 0 0).crash = true <;>
    simp [runBatch, h, List.filter_append, hP]

theorem manifest_not_record (j : Nat) : ∀ q, isRecordEv j (.manifest q) = false := by
  intro q
  rfl

theorem manifest_not_skipped (j : Nat) : ∀ q, isSkippedEv j (.manifest q) = false := by
  intro q
  rfl

theorem manifest_not_began (j : Nat) : ∀ q, isBeganEv j (.manifest q) = false := by
  intro q
  rfl

theorem manifest_not_fail (j : Nat) : ∀ q, isFailEv j (.manifest q) = false := by
  intro q
  rfl

theorem manifest_not_appendAt (j : Nat) : ∀ q, isAppendAt j (.manifest q) = false := by
  intro q
  rfl

theorem manifest_not_append : ∀ q, isAppendEv (.manifest q) = false := by
  intro q
  rfl

theorem manifest_not_appendBelow (j : Nat) : ∀ q, isAppendBelow j (.manifest q) = false := by
  intro q
  rfl

theorem manifest_not_write (j : Nat) (p : String) : ∀ q, isWriteAt j p (.manifest q) = false := by
  intro q
  rfl

theorem manifest_not_step (j : Nat) : ∀ q, isStepEvOf j (.manifest q) = false := by
  intro q
  rfl

theorem Outcome.isSucc_eq_false (o : Outcome) (h : o ≠ .success) : o.isSucc = false := by
  cases o <;> simp_all [Outcome.isSucc]

theorem seg_countP_record (o : Outcome) (i f j) :
    (segFor o i f).countP (isRecordEv j) = 0 := by
  cases o <;> simp [segFor, isRecordEv, List.countP_cons, List.countP_nil]

theorem seg_countP_began (o : Outcome) (i f) (h : o ≠ .skipped) :
    (segFor o i f).countP (isBeganEv i) = 1 := by
  cases o <;> simp_all [segFor, isBeganEv, List.countP_cons, List.countP_nil]

theorem seg_any_began (o : Outcome) (i f) (h : o ≠ .skipped) :
    (segFor o i f).any (isBeganEv i) = true := by
  cases o <;> simp_all [segFor, isBeganEv]

theorem seg_any_fail (o : Outcome) (i f) (h1 : o ≠ .skipped) (h2 : o ≠ .success) :
    (segFor o i f).any (isFailEv i) = true := by
  cases o <;> simp_all [segFor, isFailEv]

theorem seg_any_appendAt_false (o : Outcome) (i f j) (h : o ≠ .success) :
    (segFor o i f).any (isAppendAt j) = false := by
  cases o <;> simp_all [segFor, isAppendAt]

theorem seg_succ_any_appendAt (i f) : (segFor .success i f).any (isAppendAt i) = true := by
  simp [segFor, isAppendAt]

theorem seg_succ_any_write (i f) : (segFor .success i f).any (isWriteAt i f) = true := by
  simp [segFor, isWriteAt]

theorem seg_countP_appendEv (o : Outcome) (i f) :
    (segFor o i f).countP isAppendEv = if o = .success then 1 else 0 := by
  cases o <;> simp [segFor, isAppendEv, List.countP_cons, List.countP_nil]

theorem seg_countP_appendBelow (o : Outcome) (i f j) :
    (segFor o i f).countP (isAppendBelow j)
      = if o = .success ∧ i < j then 1 else 0 := by
  cases o <;> by_cases hij : i < j <;>
    simp [segFor, isAppendBelow, List.countP_cons, List.countP_nil, hij]

theorem seg_any_ne (o : Outcome) (i f j) (P : Ev → Bool)
    (hP : ∀ e, P e = true → evIdx e = j) (hij : i ≠ j) :
    (segFor o i f).any P = false := by
  rw [List.any_eq_false]
  intro e he hPe
  have h1 := segFor_idx o i f e he
  have h2 := hP e hPe
  exact hij (h1 ▸ h2)

theorem seg_countP_ne (o : Outcome) (i f j) (P : Ev → Bool)
    (hP : ∀ e, P e = true → evIdx e = j) (hij : i ≠ j) :
    (segFor o i f).countP P = 0 := by
  rw [List.countP_eq_zero]
  intro e he hPe
  have h1 := segFor_idx o i f e he
  have h2 := hP e hPe
  exact hij (h1 ▸ h2)

theorem seg_filter_ne (o : Outcome) (i f j) (P : Ev → Bool)
    (hP : ∀ e, P e = true → evIdx e = j) (hij : i ≠ j) :
    (segFor o i f).filter P = [] := by
  rw [List.filter_eq_nil_iff]
  intro e he hPe
  have h1 := segFor_idx o i f e he
  have h2 := hP e hPe
  exact hij (h1 ▸ h2)

theorem runLoop_head_record (w : World) (fd : String) (limit : JSLimit)
    (item : JV) (rest : List JV) (index p : Nat) :
    recordIn (runLoop w fd limit (item :: rest) index p).evs (index + 1) = true := by
  by_cases hn : isNullJV item = true
  · rw [runLoop_cons_null w fd limit item rest index p hn]
    simp [recordIn, isRecordEv]
  · rw [Bool.not_eq_true] at hn
    by_cases hu : truthy (jget item "imageUrl") = true
    · by_cases hs : outcomeOf w (index + 1) = .success
      · by_cases hl : limitHit limit (p + 1) = true
        · rw [runLoop_cons_succ_break w fd limit item rest index p hn hu hs hl]
          simp [recordIn, isRecordEv]
        · rw [Bool.not_eq_true] at hl
          rw [runLoop_cons_succ_cont w fd limit item rest index p hn hu hs hl]
          simp [recordIn, isRecordEv]
      · rw [runLoop_cons_fail w fd limit item rest index p hn hu
          (Outcome.isSucc_eq_false _ hs)]
        simp [recordIn, isRecordEv]
    · rw [Bool.not_eq_true] at hu
      rw [runLoop_cons_skip w fd limit item rest index p hn hu]
      simp [recordIn, isRecordEv]

theorem runLoop_c1 (w : World) (fd : String) (limit : JSLimit) :
    ∀ (items : List JV) (index p j : Nat),
      beganIn (runLoop w fd limit items index p).evs j = true →
      stepsOk w j = false →
      failIn (runLoop w fd limit items index p).evs j = true
      ∧ recordCount (runLoop w fd limit items index p).evs j = 1
      ∧ beganCount (runLoop w fd limit items index p).evs j = 1
      ∧ appendIn (runLoop w fd limit items index p).evs j = false
      ∧ (j + 1 ≤ index + items.length →
          recordIn (runLoop w fd limit items index p).evs (j + 1) = true) := by
  intro items
  induction items with
  | nil =>
    intro index p j hb hs
    rw [runLoop_nil] at hb
    simp [beganIn] at hb
  | cons item rest ih =>
    intro index p j hb hs
    by_cases hn : isNullJV item = true
    · rw [runLoop_cons_null w fd limit item rest index p hn] at hb
      simp [beganIn, isBeganEv] at hb
    · rw [Bool.not_eq_true] at hn
      by_cases hu : truthy (jget item "imageUrl") = true
      · by_cases hsucc : outcomeOf w (index + 1) = .success
        · by_cases hl : limitHit limit (p + 1) = true
          · rw [runLoop_cons_succ_break w fd limit item rest index p hn hu hsucc hl] at hb ⊢
            by_cases hji : j = index + 1
            · subst hji
              rw [outcomeOf_success_iff] at hsucc
              rw [hsucc] at hs
              exact absurd hs (by simp)
            · exfalso
              have hseg := seg_any_ne .success (index + 1)
                (finalFileName fd item (index + 1)) j (isBeganEv j)
                (isBeganEv_idx j) (fun he => hji he.symm)
              simp [beganIn, isBeganEv, hseg] at hb
          · rw [Bool.not_eq_true] at hl
            rw [runLoop_cons_succ_cont w fd limit item rest index p hn hu hsucc hl] at hb ⊢
            by_cases hji : j = index + 1
            · subst hji
              rw [outcomeOf_success_iff] at hsucc
              rw [hsucc] at hs
              exact absurd hs (by simp)
            · have hji' : index + 1 ≠ j := fun he => hji he.symm
              have hsegb := seg_any_ne .success (index + 1)
                (finalFileName fd item (index + 1)) j (isBeganEv j)
                (isBeganEv_idx j) hji'
              have hb' : beganIn (runLoop w fd limit rest (index + 1) (p + 1)).evs j = true := by
                simp [beganIn, isBeganEv, hsegb, List.any_append] at hb
                simpa [beganIn] using hb
              obtain ⟨ihf, ihrc, ihbc, ihap, ihnext⟩ := ih (index + 1) (p + 1) j hb' hs
              refine ⟨?_, ?_, ?_, ?_, ?_⟩
              · have hseg := seg_any_ne .success (index + 1)
                  (finalFileName fd item (index + 1)) j (isFailEv j) (isFailEv_idx j) hji'
                simp only [failIn, List.any_cons, List.any_append, hseg]
                simp only [failIn] at ihf
                simp [isFailEv, ihf]
              · simp only [recordCount, List.countP_cons, List.countP_append,
                  seg_countP_record]
                simp only [recordCount] at ihrc
                simp [isRecordEv, hji', ihrc]
              · have hseg := seg_countP_ne .success (index + 1)
                  (finalFileName fd item (index + 1)) j (isBeganEv j) (isBeganEv_idx j) hji'
                simp only [beganCount, List.countP_cons, List.countP_append, hseg]
                simp only [beganCount] at ihbc
                simp [isBeganEv, ihbc]
              · have hseg := seg_any_ne .success (index + 1)
                  (finalFileName fd item (index + 1)) j (isAppendAt j) (isAppendAt_idx j) hji'
                simp only [appendIn, List.any_cons, List.any_append, hseg]
                simp only [appendIn] at ihap
                simp [isAppendAt, ihap]
              · intro hlen
                simp only [List.length_cons] at hlen
                have hnext := ihnext (by omega)
                have hj2 : index + 1 < j := by
                  rw [beganIn, List.any_eq_true] at hb'
                  obtain ⟨e, he, hPe⟩ := hb'
                  have h1 := runLoop_idx_lt w fd limit rest (index + 1) (p + 1) e he
                  have h2 := isBeganEv_idx j e hPe
                  omega
                have hseg := seg_any_ne .success (index + 1)
                  (finalFileName fd item (index + 1)) (j + 1)
                  (isRecordEv (j + 1)) (isRecordEv_idx (j + 1)) (by omega)
                simp only [recordIn, List.any_cons, List.any_append, hseg]
                simp only [recordIn] at hnext
                have hne : ¬(index + 1 = j + 1) := by omega
                simp [isRecordEv, hnext, hne]
        · have hsf := Outcome.isSucc_eq_false _ hsucc
          have hns := outcomeOf_ne_skipped w (index + 1)
          rw [runLoop_cons_fail w fd limit item rest index p hn hu hsf] at hb ⊢
          by_cases hji : j = index + 1
          · subst hji
            refine ⟨?_, ?_, ?_, ?_, ?_⟩
            · simp only [failIn, List.any_cons, List.any_append,
                seg_any_fail _ _ _ hns hsucc]
              simp
            · simp only [recordCount, List.countP_cons, List.countP_append,
                seg_countP_record,
                runLoop_countP_low w fd limit rest (index + 1) p (index + 1)
                  (isRecordEv (index + 1)) (isRecordEv_idx (index + 1)) (by omega)]
              simp [isRecordEv]
            · simp only [beganCount, List.countP_cons, List.countP_append,
                seg_countP_began _ _ _ hns,
                runLoop_countP_low w fd limit rest (index + 1) p (index + 1)
                  (isBeganEv (index + 1)) (isBeganEv_idx (index + 1)) (by omega)]
              simp [isBeganEv]
            · simp only [appendIn, List.any_cons, List.any_append,
                seg_any_appendAt_false _ _ _ _ hsucc,
                runLoop_any_low w fd limit rest (index + 1) p (index + 1)
                  (isAppendAt (index + 1)) (isAppendAt_idx (index + 1)) (by omega)]
              simp [isAppendAt]
            · intro hlen
              simp only [List.length_cons] at hlen
              cases rest with
              | nil => simp only [List.length_nil] at hlen; omega
              | cons r rs =>
                have hhead := runLoop_head_record w fd limit r rs (index + 1) p
                have hseg := seg_any_ne (outcomeOf w (index + 1)) (index + 1) (finalFileName fd item (index + 1))
                  (index + 1 + 1) (isRecordEv (index + 1 + 1))
                  (isRecordEv_idx (index + 1 + 1)) (by omega)
                simp only [recordIn, List.any_cons, List.any_append, hseg]
                simp only [recordIn] at hhead
                simp [isRecordEv, hhead]
          · have hji' : index + 1 ≠ j := fun he => hji he.symm
            have hsegb := seg_any_ne (outcomeOf w (index + 1)) (index + 1)
              (finalFileName fd item (index + 1)) j (isBeganEv j) (isBeganEv_idx j) hji'
            have hb' : beganIn (runLoop w fd limit rest (index + 1) p).evs j = true := by
              simp [beganIn, isBeganEv, hsegb, List.any_append] at hb
              simpa [beganIn] using hb
            obtain ⟨ihf, ihrc, ihbc, ihap, ihnext⟩ := ih (index + 1) p j hb' hs
            refine ⟨?_, ?_, ?_, ?_, ?_⟩
            · have hseg := seg_any_ne (outcomeOf w (index + 1)) (index + 1) (finalFileName fd item (index + 1)) j
                (isFailEv j) (isFailEv_idx j) hji'
              simp only [failIn, List.any_cons, List.any_append, hseg]
              simp only [failIn] at ihf
              simp [isFailEv, ihf]
            · simp only [recordCount, List.countP_cons, List.countP_append,
                seg_countP_record]
              simp only [recordCount] at ihrc
              simp [isRecordEv, hji', ihrc]
            · have hseg := seg_countP_ne (outcomeOf w (index + 1)) (index + 1)
                (finalFileName fd item (index + 1)) j (isBeganEv j) (isBeganEv_idx j) hji'
              simp only [beganCount, List.countP_cons, List.countP_append, hseg]
              simp only [beganCount] at ihbc
              simp [isBeganEv, ihbc]
            · have hseg := seg_any_ne (outcomeOf w (index + 1)) (index + 1)
                (finalFileName fd item (index + 1)) j (isAppendAt j) (isAppendAt_idx j) hji'
              simp only [appendIn, List.any_cons, List.any_append, hseg]
              simp only [appendIn] at ihap
              simp [isAppendAt, ihap]
            · intro hlen
              simp only [List.length_cons] at hlen
              have hnext := ihnext (by omega)
              have hj2 : index + 1 < j := by
                rw [beganIn, List.any_eq_true] at hb'
                obtain ⟨e, he, hPe⟩ := hb'
                have h1 := runLoop_idx_lt w fd limit rest (index + 1) p e he
                have h2 := isBeganEv_idx j e hPe
                omega
              have hseg := seg_any_ne (outcomeOf w (index + 1)) (index + 1)
                (finalFileName fd item (index + 1)) (j + 1)
                (isRecordEv (j + 1)) (isRecordEv_idx (j + 1)) (by omega)
              simp only [recordIn, List.any_cons, List.any_append, hseg]
              simp only [recordIn] at hnext
              have hne : ¬(index + 1 = j + 1) := by omega
              simp [isRecordEv, hnext, hne]
      · rw [Bool.not_eq_true] at hu
        rw [runLoop_cons_skip w fd limit item rest index p hn hu] at hb ⊢
        have hb' : beganIn (runLoop w fd limit rest (index + 1) p).evs j = true := by
          simp [beganIn, isBeganEv] at hb
          simpa [beganIn] using hb
        have hj2 : index + 1 < j := by
          rw [beganIn, List.any_eq_true] at hb'
          obtain ⟨e, he, hPe⟩ := hb'
          have h1 := runLoop_idx_lt w fd limit rest (index + 1) p e he
          have h2 := isBeganEv_idx j e hPe
          omega
        obtain ⟨ihf, ihrc, ihbc, ihap, ihnext⟩ := ih (index + 1) p j hb' hs
        refine ⟨?_, ?_, ?_, ?_, ?_⟩
        · simp only [failIn, List.any_cons]
          simp only [failIn] at ihf
          simp [isFailEv, ihf]
        · simp only [recordCount, List.countP_cons]
          simp only [recordCount] at ihrc
          have hne : index + 1 ≠ j := by omega
          simp [isRecordEv, isSkippedEv, hne, ihrc]
        · simp only [beganCount, List.countP_cons]
          simp only [beganCount] at ihbc
          simp [isBeganEv, ihbc]
        · simp only [appendIn, List.any_cons]
          simp only [appendIn] at ihap
          simp [isAppendAt, ihap]
        · intro hlen
          simp only [List.length_cons] at hlen
          have hnext := ihnext (by omega)
          simp only [recordIn, List.any_cons]
          simp only [recordIn] at hnext
          have hne : ¬(index + 1 = j + 1) := by omega
          simp [isRecordEv, hnext, hne]

theorem runLoop_c2 (w : World) (fd : String) (limit : JSLimit) :
    ∀ (items : List JV) (index p : Nat),
      ((runLoop w fd limit items index p).outs.length
          = (runLoop w fd limit items index p).evs.countP isAppendEv)
      ∧ (∀ j, beganIn (runLoop w fd limit items index p).evs j = true →
          (appendIn (runLoop w fd limit items index p).evs j = true ↔ stepsOk w j = true))
      ∧ (∀ j, appendIn (runLoop w fd limit items index p).evs j = true →
          beganIn (runLoop w fd limit items index p).evs j = true) := by
  intro items
  induction items with
  | nil =>
    intro index p
    rw [runLoop_nil]
    refine ⟨rfl, ?_, ?_⟩ <;> intro j h <;> simp [beganIn, appendIn] at h
  | cons item rest ih =>
    intro index p
    by_cases hn : isNullJV item = true
    · rw [runLoop_cons_null w fd limit item rest index p hn]
      refine ⟨rfl, ?_, ?_⟩ <;> intro j h <;>
        simp [beganIn, appendIn, isBeganEv, isAppendAt] at h
    · rw [Bool.not_eq_true] at hn
      by_cases hu : truthy (jget item "imageUrl") = true
      · by_cases hsucc : outcomeOf w (index + 1) = .success
        · have hsteps : stepsOk w (index + 1) = true := (outcomeOf_success_iff w _).mp hsucc
          by_cases hl : limitHit limit (p + 1) = true
          · rw [runLoop_cons_succ_break w fd limit item rest index p hn hu hsucc hl]
            refine ⟨?_, ?_, ?_⟩
            · simp [segFor, isAppendEv, List.countP_cons, List.countP_nil]
            · intro j hb
              by_cases hji : j = index + 1
              · subst hji
                simp only [appendIn, List.any_cons, seg_succ_any_appendAt, Bool.or_true]
                simp [hsteps]
              · exfalso
                have hseg := seg_any_ne .success (index + 1)
                  (finalFileName fd item (index + 1)) j (isBeganEv j)
                  (isBeganEv_idx j) (fun he => hji he.symm)
                simp [beganIn, isBeganEv, hseg] at hb
            · intro j ha
              by_cases hji : j = index + 1
              · subst hji
                have hns : Outcome.success ≠ Outcome.skipped := by simp
                simp only [beganIn, List.any_cons,
                  seg_any_began .success (index + 1) (finalFileName fd item (index + 1)) hns,
                  Bool.or_true]
              · exfalso
                have hseg := seg_any_ne .success (index + 1)
                  (finalFileName fd item (index + 1)) j (isAppendAt j)
                  (isAppendAt_idx j) (fun he => hji he.symm)
                simp [appendIn, isAppendAt, hseg] at ha
          · rw [Bool.not_eq_true] at hl
            rw [runLoop_cons_succ_cont w fd limit item rest index p hn hu hsucc hl]
            obtain ⟨ihlen, ihiff, ihba⟩ := ih (index + 1) (p + 1)
            refine ⟨?_, ?_, ?_⟩
            · simp only [List.length_cons, List.countP_cons, List.countP_append,
                seg_countP_appendEv]
              simp [isAppendEv, ihlen]
              omega
            · intro j hb
              by_cases hji : j = index + 1
              · subst hji
                simp only [appendIn, List.any_cons, List.any_append,
                  seg_succ_any_appendAt]
                simp [hsteps]
              · have hji' : index + 1 ≠ j := fun he => hji he.symm
                have hsegb := seg_any_ne .success (index + 1)
                  (finalFileName fd item (index + 1)) j (isBeganEv j) (isBeganEv_idx j) hji'
                have hb' : beganIn (runLoop w fd limit rest (index + 1) (p + 1)).evs j = true := by
                  simp [beganIn, isBeganEv, hsegb, List.any_append] at hb
                  simpa [beganIn] using hb
                have hsega := seg_any_ne .success (index + 1)
                  (finalFileName fd item (index + 1)) j (isAppendAt j) (isAppendAt_idx j) hji'
                simp only [appendIn, List.any_cons, List.any_append, hsega]
                have := ihiff j hb'
                simp only [appendIn] at this
                simp [isAppendAt, this]
            · intro j ha
              by_cases hji : j = index + 1
              · subst hji
                have hns : Outcome.success ≠ Outcome.skipped := by simp
                simp only [beganIn, List.any_cons, List.any_append,
                  seg_any_began .success (index + 1) (finalFileName fd item (index + 1)) hns]
                simp
              · have hji' : index + 1 ≠ j := fun he => hji he.symm
                have hsega := seg_any_ne .success (index + 1)
                  (finalFileName fd item (index + 1)) j (isAppendAt j) (isAppendAt_idx j) hji'
                have ha' : appendIn (runLoop w fd limit rest (index + 1) (p + 1)).evs j = true := by
                  simp [appendIn, isAppendAt, hsega, List.any_append] at ha
                  simpa [appendIn] using ha
                have hsegb := seg_any_ne .success (index + 1)
                  (finalFileName fd item (index + 1)) j (isBeganEv j) (isBeganEv_idx j) hji'
                simp only [beganIn, List.any_cons, List.any_append, hsegb]
                have := ihba j ha'
                simp only [beganIn] at this
                simp [isBeganEv, this]
        · have hsf := Outcome.isSucc_eq_false _ hsucc
          have hns := outcomeOf_ne_skipped w (index + 1)
          have hs0 : stepsOk w (index + 1) = false := by
            rw [← Bool.not_eq_true]
            intro h
            exact hsucc ((outcomeOf_success_iff w _).mpr h)
          rw [runLoop_cons_fail w fd limit item rest index p hn hu hsf]
          obtain ⟨ihlen, ihiff, ihba⟩ := ih (index + 1) p
          refine ⟨?_, ?_, ?_⟩
          · simp only [List.countP_cons, List.countP_append, seg_countP_appendEv]
            simp [isAppendEv, ihlen, hsucc]
          · intro j hb
            by_cases hji : j = index + 1
            · subst hji
              have hsega := seg_any_appendAt_false (outcomeOf w (index + 1)) (index + 1)
                (finalFileName fd item (index + 1)) (index + 1) hsucc
              have htaila := runLoop_any_low w fd limit rest (index + 1) p (index + 1)
                (isAppendAt (index + 1)) (isAppendAt_idx (index + 1)) (by omega)
              simp only [appendIn, List.any_cons, List.any_append, hsega, htaila]
              simp [isAppendAt, hs0]
            · have hji' : index + 1 ≠ j := fun he => hji he.symm
              have hsegb := seg_any_ne (outcomeOf w (index + 1)) (index + 1)
                (finalFileName fd item (index + 1)) j (isBeganEv j) (isBeganEv_idx j) hji'
              have hb' : beganIn (runLoop w fd limit rest (index + 1) p).evs j = true := by
                simp [beganIn, isBeganEv, hsegb, List.any_append] at hb
                simpa [beganIn] using hb
              have hsega := seg_any_ne (outcomeOf w (index + 1)) (index + 1)
                (finalFileName fd item (index + 1)) j (isAppendAt j) (isAppendAt_idx j) hji'
              simp only [appendIn, List.any_cons, List.any_append, hsega]
              have := ihiff j hb'
              simp only [appendIn] at this
              simp [isAppendAt, this]
          · intro j ha
            by_cases hji : j = index + 1
            · subst hji
              simp only [beganIn, List.any_cons, List.any_append,
                seg_any_began (outcomeOf w (index + 1)) (index + 1)
                  (finalFileName fd item (index + 1)) hns]
              simp
            · have hji' : index + 1 ≠ j := fun he => hji he.symm
              have hsega := seg_any_ne (outcomeOf w (index + 1)) (index + 1)
                (finalFileName fd item (index + 1)) j (isAppendAt j) (isAppendAt_idx j) hji'
              have ha' : appendIn (runLoop w fd limit rest (index + 1) p).evs j = true := by
                simp [appendIn, isAppendAt, hsega, List.any_append] at ha
                simpa [appendIn] using ha
              have hsegb := seg_any_ne (outcomeOf w (index + 1)) (index + 1)
                (finalFileName fd item (index + 1)) j (isBeganEv j) (isBeganEv_idx j) hji'
              simp only [beganIn, List.any_cons, List.any_append, hsegb]
              have := ihba j ha'
              simp only [beganIn] at this
              simp [isBeganEv, this]
      · rw [Bool.not_eq_true] at hu
        rw [runLoop_cons_skip w fd limit item rest index p hn hu]
        obtain ⟨ihlen, ihiff, ihba⟩ := ih (index + 1) p
        refine ⟨?_, ?_, ?_⟩
        · simp only [List.countP_cons]
          simp [isAppendEv, ihlen]
        · intro j hb
          have hb' : beganIn (runLoop w fd limit rest (index + 1) p).evs j = true := by
            simp [beganIn, isBeganEv] at hb
            simpa [beganIn] using hb
          simp only [appendIn, List.any_cons]
          have := ihiff j hb'
          simp only [appendIn] at this
          simp [isAppendAt, this]
        · intro j ha
          have ha' : appendIn (runLoop w fd limit rest (index + 1) p).evs j = true := by
            simp [appendIn, isAppendAt] at ha
            simpa [appendIn] using ha
          simp only [beganIn, List.any_cons]
          have := ihba j ha'
          simp only [beganIn] at this
          simp [isBeganEv, this]

theorem hasNoNull_cons (a : JV) (l : List JV) :
    hasNoNull (a :: l) = (!(isNullJV a) && hasNoNull l) := by
  cases a <;> simp [hasNoNull, isNullJV]

theorem runLoop_limit_le (w : World) (fd : String) (N : Int) :
    ∀ (items : List JV) (index p : Nat), (p : Int) < N →
      (p : Int) + (runLoop w fd (.num N) items index p).evs.countP isAppendEv ≤ N := by
  intro items
  induction items with
  | nil =>
    intro index p hp
    rw [runLoop_nil]
    simp
    omega
  | cons item rest ih =>
    intro index p hp
    by_cases hn : isNullJV item = true
    · rw [runLoop_cons_null w fd (.num N) item rest index p hn]
      simp [isAppendEv, List.countP_cons, List.countP_nil]
      omega
    · rw [Bool.not_eq_true] at hn
      by_cases hu : truthy (jget item "imageUrl") = true
      · by_cases hsucc : outcomeOf w (index + 1) = .success
        · by_cases hl : limitHit (.num N) (p + 1) = true
          · rw [runLoop_cons_succ_break w fd (.num N) item rest index p hn hu hsucc hl]
            simp only [List.countP_cons, seg_countP_appendEv]
            simp [isAppendEv]
            omega
          · rw [Bool.not_eq_true] at hl
            rw [runLoop_cons_succ_cont w fd (.num N) item rest index p hn hu hsucc hl]
            have hp1 : ((p + 1 : Nat) : Int) < N := by
              by_contra hcon
              push_neg at hcon
              have hTrue : limitHit (.num N) (p + 1) = true := by
                simp [limitHit]
                omega
              rw [hTrue] at hl
              exact absurd hl (by simp)
            have hrec := ih (index + 1) (p + 1) hp1
            simp only [List.countP_cons, List.countP_append, seg_countP_appendEv]
            simp [isAppendEv]
            omega
        · have hsf := Outcome.isSucc_eq_false _ hsucc
          rw [runLoop_cons_fail w fd (.num N) item rest index p hn hu hsf]
          have hrec := ih (index + 1) p hp
          simp only [List.countP_cons, List.countP_append, seg_countP_appendEv]
          simp [isAppendEv, hsucc]
          omega
      · rw [Bool.not_eq_true] at hu
        rw [runLoop_cons_skip w fd (.num N) item rest index p hn hu]
        have hrec := ih (index + 1) p hp
        simp only [List.countP_cons]
        simp [isAppendEv]
        omega

theorem runLoop_record_below (w : World) (fd : String) (N : Int) :
    ∀ (items : List JV) (index p j : Nat), (p : Int) < N →
      recordIn (runLoop w fd (.num N) items index p).evs j = true →
      (p : Int) + (runLoop w fd (.num N) items index p).evs.countP (isAppendBelow j) < N := by
  intro items
  induction items with
  | nil =>
    intro index p j hp hr
    rw [runLoop_nil] at hr
    simp [recordIn] at hr
  | cons item rest ih =>
    intro index p j hp hr
    by_cases hn : isNullJV item = true
    · rw [runLoop_cons_null w fd (.num N) item rest index p hn] at hr ⊢
      simp [isAppendBelow, List.countP_cons, List.countP_nil]
      omega
    · rw [Bool.not_eq_true] at hn
      by_cases hu : truthy (jget item "imageUrl") = true
      · by_cases hsucc : outcomeOf w (index + 1) = .success
        · by_cases hl : limitHit (.num N) (p + 1) = true
          · rw [runLoop_cons_succ_break w fd (.num N) item rest index p hn hu hsucc hl] at hr ⊢
            by_cases hji : j = index + 1
            · subst hji
              simp only [List.countP_cons, seg_countP_appendBelow]
              simp [isAppendBelow]
              omega
            · exfalso
              have hseg := seg_any_ne .success (index + 1)
                (finalFileName fd item (index + 1)) j (isRecordEv j)
                (isRecordEv_idx j) (fun he => hji he.symm)
              simp [recordIn, isRecordEv, hji, hseg] at hr
              exact hji hr.symm
          · rw [Bool.not_eq_true] at hl
            rw [runLoop_cons_succ_cont w fd (.num N) item rest index p hn hu hsucc hl] at hr ⊢
            have hp1 : ((p + 1 : Nat) : Int) < N := by
              by_contra hcon
              push_neg at hcon
              have hTrue : limitHit (.num N) (p + 1) = true := by
                simp [limitHit]
                omega
              rw [hTrue] at hl
              exact absurd hl (by simp)
            by_cases hji : j = index + 1
            · subst hji
              have htail := runLoop_appendsBelow_low w fd (.num N) rest (index + 1) (p + 1)
                (index + 1) (by omega)
              simp only [List.countP_cons, List.countP_append, seg_countP_appendBelow, htail]
              simp [isAppendBelow]
              omega
            · have hji' : index + 1 ≠ j := fun he => hji he.symm
              have hsegr := seg_any_ne .success (index + 1)
                (finalFileName fd item (index + 1)) j (isRecordEv j) (isRecordEv_idx j) hji'
              have hr' : recordIn (runLoop w fd (.num N) rest (index + 1) (p + 1)).evs j = true := by
                simp [recordIn, isRecordEv, hji, hsegr, List.any_append] at hr
                rcases hr with h | h
                · exact absurd h.symm hji
                · simpa [recordIn] using h
              have hj2 : index + 1 < j := by
                rw [recordIn, List.any_eq_true] at hr'
                obtain ⟨e, he, hPe⟩ := hr'
                have h1 := runLoop_idx_lt w fd (.num N) rest (index + 1) (p + 1) e he
                have h2 := isRecordEv_idx j e hPe
                omega
              have hrec := ih (index + 1) (p + 1) j hp1 hr'
              simp only [List.countP_cons, List.countP_append, seg_countP_appendBelow]
              simp [isAppendBelow, hj2]
              omega
        · have hsf := Outcome.isSucc_eq_false _ hsucc
          rw [runLoop_cons_fail w fd (.num N) item rest index p hn hu hsf] at hr ⊢
          by_cases hji : j = index + 1
          · subst hji
            have htail := runLoop_appendsBelow_low w fd (.num N) rest (index + 1) p
              (index + 1) (by omega)
            simp only [List.countP_cons, List.countP_append, seg_countP_appendBelow, htail]
            simp [isAppendBelow, hsucc]
            omega
          · have hji' : index + 1 ≠ j := fun he => hji he.symm
            have hsegr := seg_any_ne (outcomeOf w (index + 1)) (index + 1)
              (finalFileName fd item (index + 1)) j (isRecordEv j) (isRecordEv_idx j) hji'
            have hr' : recordIn (runLoop w fd (.num N) rest (index + 1) p).evs j = true := by
              simp [recordIn, isRecordEv, hji, hsegr, List.any_append] at hr
              rcases hr with h | h
              · exact absurd h.symm hji
              · simpa [recordIn] using h
            have hrec := ih (index + 1) p j hp hr'
            simp only [List.countP_cons, List.countP_append, seg_countP_appendBelow]
            simp [isAppendBelow, hsucc]
            omega
      · rw [Bool.not_eq_true] at hu
        rw [runLoop_cons_skip w fd (.num N) item rest index p hn hu] at hr ⊢
        by_cases hji : j = index + 1
        · subst hji
          have htail := runLoop_appendsBelow_low w fd (.num N) rest (index + 1) p
            (index + 1) (by omega)
          simp only [List.countP_cons, htail]
          simp [isAppendBelow]
          omega
        · have hr' : recordIn (runLoop w fd (.num N) rest (index + 1) p).evs j = true := by
            simp [recordIn, isRecordEv, hji] at hr
            rcases hr with h | h
            · exact absurd h.symm hji
            · simpa [recordIn] using h
          have hrec := ih (index + 1) p j hp hr'
          simp only [List.countP_cons]
          simp [isAppendBelow]
          omega

theorem runLoop_record_of_below (w : World) (fd : String) (N : Int) :
    ∀ (items : List JV) (index p j : Nat), hasNoNull items = true →
      index < j → j ≤ index + items.length →
      (p : Int) + (runLoop w fd (.num N) items index p).evs.countP (isAppendBelow j) < N →
      recordIn (runLoop w fd (.num N) items index p).evs j = true := by
  intro items
  induction items with
  | nil =>
    intro index p j _ hlo hhi _
    simp only [List.length_nil] at hhi
    omega
  | cons item rest ih =>
    intro index p j hnn hlo hhi hbel
    rw [hasNoNull_cons] at hnn
    have hn : isNullJV item = false := by
      rcases h : isNullJV item
      · rfl
      · rw [h] at hnn
        simp at hnn
    have hnn' : hasNoNull rest = true := by
      rw [hn] at hnn
      simpa using hnn
    simp only [List.length_cons] at hhi
    by_cases hu : truthy (jget item "imageUrl") = true
    · by_cases hsucc : outcomeOf w (index + 1) = .success
      · by_cases hl : limitHit (.num N) (p + 1) = true
        · rw [runLoop_cons_succ_break w fd (.num N) item rest index p hn hu hsucc hl] at hbel ⊢
          by_cases hji : j = index + 1
          · subst hji
            simp [recordIn, isRecordEv]
          · exfalso
            have hj2 : index + 1 < j := by omega
            simp only [List.countP_cons, seg_countP_appendBelow] at hbel
            simp [isAppendBelow, hj2] at hbel
            simp [limitHit] at hl
            omega
        · rw [Bool.not_eq_true] at hl
          rw [runLoop_cons_succ_cont w fd (.num N) item rest index p hn hu hsucc hl] at hbel ⊢
          by_cases hji : j = index + 1
          · subst hji
            simp [recordIn, isRecordEv]
          · have hj2 : index + 1 < j := by omega
            simp only [List.countP_cons, List.countP_append, seg_countP_appendBelow] at hbel
            simp [isAppendBelow, hj2] at hbel
            have hr' := ih (index + 1) (p + 1) j hnn' (by omega) (by omega) (by omega)
            simp only [recordIn, List.any_cons, List.any_append]
            simp only [recordIn] at hr'
            simp [isRecordEv, hr']
      · have hsf := Outcome.isSucc_eq_false _ hsucc
        rw [runLoop_cons_fail w fd (.num N) item rest index p hn hu hsf] at hbel ⊢
        by_cases hji : j = index + 1
        · subst hji
          simp [recordIn, isRecordEv]
        · have hj2 : index + 1 < j := by omega
          simp only [List.countP_cons, List.countP_append, seg_countP_appendBelow] at hbel
          simp [isAppendBelow, hsucc] at hbel
          have hr' := ih (index + 1) p j hnn' (by omega) (by omega) (by omega)
          simp only [recordIn, List.any_cons, List.any_append]
          simp only [recordIn] at hr'
          simp [isRecordEv, hr']
    · rw [Bool.not_eq_true] at hu
      rw [runLoop_cons_skip w fd (.num N) item rest index p hn hu] at hbel ⊢
      by_cases hji : j = index + 1
      · subst hji
        simp [recordIn, isRecordEv]
      · have hj2 : index + 1 < j := by omega
        simp only [List.countP_cons] at hbel
        simp [isAppendBelow] at hbel
        have hr' := ih (index + 1) p j hnn' (by omega) (by omega) (by omega)
        simp only [recordIn, List.any_cons]
        simp only [recordIn] at hr'
        simp [isRecordEv, hr']

theorem runLoop_limit_congr (w : World) (fd : String) (l1 l2 : JSLimit)
    (h : ∀ q, limitHit l1 q = limitHit l2 q) :
    ∀ (items : List JV) (index p : Nat),
      runLoop w fd l1 items index p = runLoop w fd l2 items index p := by
  intro items
  induction items with
  | nil =>
    intro index p
    rfl
  | cons item rest ih =>
    intro index p
    by_cases hn : isNullJV item = true
    · rw [runLoop_cons_null w fd l1 item rest index p hn,
        runLoop_cons_null w fd l2 item rest index p hn]
    · rw [Bool.not_eq_true] at hn
      by_cases hu : truthy (jget item "imageUrl") = true
      · by_cases hsucc : outcomeOf w (index + 1) = .success
        · by_cases hl : limitHit l1 (p + 1) = true
          · rw [runLoop_cons_succ_break w fd l1 item rest index p hn hu hsucc hl,
              runLoop_cons_succ_break w fd l2 item rest index p hn hu hsucc ((h (p + 1)) ▸ hl)]
          · rw [Bool.not_eq_true] at hl
            rw [runLoop_cons_succ_cont w fd l1 item rest index p hn hu hsucc hl,
              runLoop_cons_succ_cont w fd l2 item rest index p hn hu hsucc ((h (p + 1)) ▸ hl),
              ih (index + 1) (p + 1)]
        · have hsf := Outcome.isSucc_eq_false _ hsucc
          rw [runLoop_cons_fail w fd l1 item rest index p hn hu hsf,
            runLoop_cons_fail w fd l2 item rest index p hn hu hsf,
            ih (index + 1) p]
      · rw [Bool.not_eq_true] at hu
        rw [runLoop_cons_skip w fd l1 item rest index p hn hu,
          runLoop_cons_skip w fd l2 item rest index p hn hu,
          ih (index + 1) p]

theorem runLoop_no_crash (w : World) (fd : String) (limit : JSLimit) :
    ∀ (items : List JV) (index p : Nat), hasNoNull items = true →
      (runLoop w fd limit items index p).crash = false := by
  intro items
  induction items with
  | nil =>
    intro index p _
    rfl
  | cons item rest ih =>
    intro index p hnn
    rw [hasNoNull_cons] at hnn
    have hn : isNullJV item = false := by
      rcases h : isNullJV item
      · rfl
      · rw [h] at hnn
        simp at hnn
    have hnn' : hasNoNull rest = true := by
      rw [hn] at hnn
      simpa using hnn
    by_cases hu : truthy (jget item "imageUrl") = true
    · by_cases hsucc : outcomeOf w (index + 1) = .success
      · by_cases hl : limitHit limit (p + 1) = true
        · rw [runLoop_cons_succ_break w fd limit item rest index p hn hu hsucc hl]
        · rw [Bool.not_eq_true] at hl
          rw [runLoop_cons_succ_cont w fd limit item rest index p hn hu hsucc hl]
          exact ih (index + 1) (p + 1) hnn'
      · have hsf := Outcome.isSucc_eq_false _ hsucc
        rw [runLoop_cons_fail w fd limit item rest index p hn hu hsf]
        exact ih (index + 1) p hnn'
    · rw [Bool.not_eq_true] at hu
      rw [runLoop_cons_skip w fd limit item rest index p hn hu]
      exact ih (index + 1) p hnn'

theorem runLoop_cover (w : World) (fd : String) (limit : JSLimit)
    (hnolim : ∀ q, limitHit limit q = false) :
    ∀ (items : List JV) (index p j : Nat) (item : JV), hasNoNull items = true →
      items.get? j = some item →
      recordIn (runLoop w fd limit items index p).evs (index + j + 1) = true
      ∧ (truthy (jget item "imageUrl") = false →
          skippedIn (runLoop w fd limit items index p).evs (index + j + 1) = true)
      ∧ (truthy (jget item "imageUrl") = true →
          beganIn (runLoop w fd limit items index p).evs (index + j + 1) = true
          ∧ (outcomeOf w (index + j + 1) = .success →
              writeIn (runLoop w fd limit items index p).evs (index + j + 1)
                  (finalFileName fd item (index + j + 1)) = true
              ∧ appendIn (runLoop w fd limit items index p).evs (index + j + 1) = true
              ∧ setField item "localUpdatedFile"
                  (.str (finalFileName fd item (index + j + 1)))
                  ∈ (runLoop w fd limit items index p).outs)) := by
  intro items
  induction items with
  | nil =>
    intro index p j item _ hg
    simp at hg
  | cons item0 rest ih =>
    intro index p j item hnn hg
    rw [hasNoNull_cons] at hnn
    have hn : isNullJV item0 = false := by
      rcases h : isNullJV item0
      · rfl
      · rw [h] at hnn
        simp at hnn
    have hnn' : hasNoNull rest = true := by
      rw [hn] at hnn
      simpa using hnn
    cases j with
    | zero =>
      simp only [List.get?_cons_zero, Option.some_inj] at hg
      subst hg
      by_cases hu : truthy (jget item0 "imageUrl") = true
      · by_cases hsucc : outcomeOf w (index + 1) = .success
        · have hl : limitHit limit (p + 1) = false := hnolim (p + 1)
          rw [runLoop_cons_succ_cont w fd limit item0 rest index p hn hu hsucc hl]
          refine ⟨by simp [recordIn, isRecordEv], (by intro h; rw [hu] at h; exact absurd h (by simp)), ?_⟩
          intro _
          constructor
          · have hns : Outcome.success ≠ Outcome.skipped := by simp
            simp only [beganIn, List.any_cons, List.any_append,
              seg_any_began .success (index + 1) (finalFileName fd item0 (index + 1)) hns]
            simp
          · intro _
            refine ⟨?_, ?_, ?_⟩
            · simp only [writeIn, List.any_cons, List.any_append,
                seg_succ_any_write (index + 1) (finalFileName fd item0 (index + 1))]
              simp
            · simp only [appendIn, List.any_cons, List.any_append,
                seg_succ_any_appendAt (index + 1) (finalFileName fd item0 (index + 1))]
              simp
            · simp
        · have hsf := Outcome.isSucc_eq_false _ hsucc
          rw [runLoop_cons_fail w fd limit item0 rest index p hn hu hsf]
          refine ⟨by simp [recordIn, isRecordEv], (by intro h; rw [hu] at h; exact absurd h (by simp)), ?_⟩
          intro _
          constructor
          · have hns := outcomeOf_ne_skipped w (index + 1)
            simp only [beganIn, List.any_cons, List.any_append,
              seg_any_began (outcomeOf w (index + 1)) (index + 1)
                (finalFileName fd item0 (index + 1)) hns]
            simp
          · intro hcon
            rw [show index + 0 + 1 = index + 1 by omega] at hcon
            exact absurd hcon hsucc
      · rw [Bool.not_eq_true] at hu
        rw [runLoop_cons_skip w fd limit item0 rest index p hn hu]
        refine ⟨by simp [recordIn, isRecordEv], ?_, (by intro h; rw [hu] at h; exact absurd h (by simp))⟩
        intro _
        simp [skippedIn, isSkippedEv]
    | succ j' =>
      simp only [List.get?_cons_succ] at hg
      have harr : index + 1 + j' + 1 = index + (j' + 1) + 1 := by omega
      by_cases hu0 : truthy (jget item0 "imageUrl") = true
      · by_cases hsucc0 : outcomeOf w (index + 1) = .success
        · have hl : limitHit limit (p + 1) = false := hnolim (p + 1)
          rw [runLoop_cons_succ_cont w fd limit item0 rest index p hn hu0 hsucc0 hl]
          obtain ⟨ihr, ihsk, ihbg⟩ := ih (index + 1) (p + 1) j' item hnn' hg
          rw [harr] at ihr ihsk ihbg
          have hne : index + 1 ≠ index + (j' + 1) + 1 := by omega
          refine ⟨?_, ?_, ?_⟩
          · have hseg := seg_any_ne .success (index + 1)
              (finalFileName fd item0 (index + 1)) (index + (j' + 1) + 1)
              (isRecordEv (index + (j' + 1) + 1)) (isRecordEv_idx _) hne
            simp only [recordIn, List.any_cons, List.any_append, hseg]
            simp only [recordIn] at ihr
            simp [isRecordEv, ihr]
          · intro hu
            have h2 := ihsk hu
            have hseg := seg_any_ne .success (index + 1)
              (finalFileName fd item0 (index + 1)) (index + (j' + 1) + 1)
              (isSkippedEv (index + (j' + 1) + 1)) (isSkippedEv_idx _) hne
            simp only [skippedIn, List.any_cons, List.any_append, hseg]
            simp only [skippedIn] at h2
            simp [isSkippedEv, h2]
          · intro hu
            obtain ⟨hbg, hsucc2⟩ := ihbg hu
            constructor
            · have hseg := seg_any_ne .success (index + 1)
                (finalFileName fd item0 (index + 1)) (index + (j' + 1) + 1)
                (isBeganEv (index + (j' + 1) + 1)) (isBeganEv_idx _) hne
              simp only [beganIn, List.any_cons, List.any_append, hseg]
              simp only [beganIn] at hbg
              simp [isBeganEv, hbg]
            · intro hso
              obtain ⟨hw, ha, hm⟩ := hsucc2 hso
              refine ⟨?_, ?_, ?_⟩
              · have hseg := seg_any_ne .success (index + 1)
                  (finalFileName fd item0 (index + 1)) (index + (j' + 1) + 1)
                  (isWriteAt (index + (j' + 1) + 1) (finalFileName fd item (index + (j' + 1) + 1)))
                  (isWriteAt_idx _ _) hne
                simp only [writeIn, List.any_cons, List.any_append, hseg]
                simp only [writeIn] at hw
                simp [isWriteAt, hw]
              · have hseg := seg_any_ne .success (index + 1)
                  (finalFileName fd item0 (index + 1)) (index + (j' + 1) + 1)
                  (isAppendAt (index + (j' + 1) + 1)) (isAppendAt_idx _) hne
                simp only [appendIn, List.any_cons, List.any_append, hseg]
                simp only [appendIn] at ha
                simp [isAppendAt, ha]
              · simp [hm]
        · have hsf0 := Outcome.isSucc_eq_false _ hsucc0
          rw [runLoop_cons_fail w fd limit item0 rest index p hn hu0 hsf0]
          obtain ⟨ihr, ihsk, ihbg⟩ := ih (index + 1) p j' item hnn' hg
          rw [harr] at ihr ihsk ihbg
          have hne : index + 1 ≠ index + (j' + 1) + 1 := by omega
          refine ⟨?_, ?_, ?_⟩
          · have hseg := seg_any_ne (outcomeOf w (index + 1)) (index + 1)
              (finalFileName fd item0 (index + 1)) (index + (j' + 1) + 1)
              (isRecordEv (index + (j' + 1) + 1)) (isRecordEv_idx _) hne
            simp only [recordIn, List.any_cons, List.any_append, hseg]
            simp only [recordIn] at ihr
            simp [isRecordEv, ihr]
          · intro hu
            have h2 := ihsk hu
            have hseg := seg_any_ne (outcomeOf w (index + 1)) (index + 1)
              (finalFileName fd item0 (index + 1)) (index + (j' + 1) + 1)
              (isSkippedEv (index + (j' + 1) + 1)) (isSkippedEv_idx _) hne
            simp only [skippedIn, List.any_cons, List.any_append, hseg]
            simp only [skippedIn] at h2
            simp [isSkippedEv, h2]
          · intro hu
            obtain ⟨hbg, hsucc2⟩ := ihbg hu
            constructor
            · have hseg := seg_any_ne (outcomeOf w (index + 1)) (index + 1)
                (finalFileName fd item0 (index + 1)) (index + (j' + 1) + 1)
                (isBeganEv (index + (j' + 1) + 1)) (isBeganEv_idx _) hne
              simp only [beganIn, List.any_cons, List.any_append, hseg]
              simp only [beganIn] at hbg
              simp [isBeganEv, hbg]
            · intro hso
              obtain ⟨hw, ha, hm⟩ := hsucc2 hso
              refine ⟨?_, ?_, ?_⟩
              · have hseg := seg_any_ne (outcomeOf w (index + 1)) (index + 1)
                  (finalFileName fd item0 (index + 1)) (index + (j' + 1) + 1)
                  (isWriteAt (index + (j' + 1) + 1) (finalFileName fd item (index + (j' + 1) + 1)))
                  (isWriteAt_idx _ _) hne
                simp only [writeIn, List.any_cons, List.any_append, hseg]
                simp only [writeIn] at hw
                simp [isWriteAt, hw]
              · have hseg := seg_any_ne (outcomeOf w (index + 1)) (index + 1)
                  (finalFileName fd item0 (index + 1)) (index + (j' + 1) + 1)
                  (isAppendAt (index + (j' + 1) + 1)) (isAppendAt_idx _) hne
                simp only [appendIn, List.any_cons, List.any_append, hseg]
                simp only [appendIn] at ha
                simp [isAppendAt, ha]
              · simp [hm]
      · rw [Bool.not_eq_true] at hu0
        rw [runLoop_cons_skip w fd limit item0 rest index p hn hu0]
        obtain ⟨ihr, ihsk, ihbg⟩ := ih (index + 1) p j' item hnn' hg
        rw [harr] at ihr ihsk ihbg
        refine ⟨?_, ?_, ?_⟩
        · simp only [recordIn, List.any_cons]
          simp only [recordIn] at ihr
          simp [isRecordEv, isSkippedEv, ihr]
        · intro hu
          have h2 := ihsk hu
          simp only [skippedIn, List.any_cons]
          simp only [skippedIn] at h2
          simp [isSkippedEv, isRecordEv, h2]
        · intro hu
          obtain ⟨hbg, hsucc2⟩ := ihbg hu
          constructor
          · simp only [beganIn, List.any_cons]
            simp only [beganIn] at hbg
            simp [isBeganEv, hbg]
          · intro hso
            obtain ⟨hw, ha, hm⟩ := hsucc2 hso
            refine ⟨?_, ?_, ?_⟩
            · simp only [writeIn, List.any_cons]
              simp only [writeIn] at hw
              simp [isWriteAt, hw]
            · simp only [appendIn, List.any_cons]
              simp only [appendIn] at ha
              simp [isAppendAt, ha]
            · simp [hm]

theorem runLoop_c8skip (w : World) (fd : String) (limit : JSLimit) :
    ∀ (items : List JV) (index p j : Nat) (item : JV),
      items.get? j = some item → isNullJV item = false →
      truthy (jget item "imageUrl") = false →
      recordIn (runLoop w fd limit items index p).evs (index + j + 1) = true →
      skippedIn (runLoop w fd limit items index p).evs (index + j + 1) = true
      ∧ beganCount (runLoop w fd limit items index p).evs (index + j + 1) = 0
      ∧ itemSteps (runLoop w fd limit items index p).evs (index + j + 1)
          = [.record (index + j + 1)] := by
  intro items
  induction items with
  | nil =>
    intro index p j item hg _ _ _
    simp at hg
  | cons item0 rest ih =>
    intro index p j item hg hnul hu hr
    cases j with
    | zero =>
      simp only [List.get?_cons_zero, Option.some_inj] at hg
      subst hg
      rw [runLoop_cons_skip w fd limit item0 rest index p hnul hu] at hr ⊢
      refine ⟨by simp [skippedIn, isSkippedEv], ?_, ?_⟩
      · have htail := runLoop_countP_low w fd limit rest (index + 1) p (index + 0 + 1)
          (isBeganEv (index + 0 + 1)) (isBeganEv_idx _) (by omega)
        simp only [beganCount, List.countP_cons, htail]
        simp [isBeganEv, isSkippedEv, isRecordEv]
      · have htail := runLoop_filter_low w fd limit rest (index + 1) p (index + 0 + 1)
          (isStepEvOf (index + 0 + 1)) (isStepEvOf_idx _) (by omega)
        simp only [itemSteps, List.filter_cons, htail]
        simp [isStepEvOf]
    | succ j' =>
      simp only [List.get?_cons_succ] at hg
      have harr : index + 1 + j' + 1 = index + (j' + 1) + 1 := by omega
      have htane : index + 1 ≠ index + (j' + 1) + 1 := by omega
      have hheadr : isRecordEv (index + (j' + 1) + 1) (Ev.record (index + 1)) = false := by
        simp [isRecordEv]
      by_cases hn : isNullJV item0 = true
      · rw [runLoop_cons_null w fd limit item0 rest index p hn] at hr
        exfalso
        simp only [recordIn, List.any_cons, List.any_nil, hheadr] at hr
        simp [isRecordEv] at hr
      · rw [Bool.not_eq_true] at hn
        by_cases hu0 : truthy (jget item0 "imageUrl") = true
        · by_cases hsucc : outcomeOf w (index + 1) = .success
          · by_cases hl : limitHit limit (p + 1) = true
            · rw [runLoop_cons_succ_break w fd limit item0 rest index p hn hu0 hsucc hl] at hr
              exfalso
              have hseg := seg_any_ne .success (index + 1)
                (finalFileName fd item0 (index + 1)) (index + (j' + 1) + 1)
                (isRecordEv (index + (j' + 1) + 1)) (isRecordEv_idx _) htane
              simp only [recordIn, List.any_cons, hheadr, hseg, Bool.false_or] at hr
              exact absurd hr (by simp)
            · rw [Bool.not_eq_true] at hl
              rw [runLoop_cons_succ_cont w fd limit item0 rest index p hn hu0 hsucc hl] at hr ⊢
              have hsegr := seg_any_ne .success (index + 1)
                (finalFileName fd item0 (index + 1)) (index + (j' + 1) + 1)
                (isRecordEv (index + (j' + 1) + 1)) (isRecordEv_idx _) htane
              have hr' : recordIn (runLoop w fd limit rest (index + 1) (p + 1)).evs
                  (index + (j' + 1) + 1) = true := by
                rw [recordIn] at hr
                simp only [List.any_cons, List.any_append, hheadr, hsegr, Bool.false_or] at hr
                exact hr
              obtain ⟨ihs, ihb, ihst⟩ := by
                have := ih (index + 1) (p + 1) j' item hg hnul hu (harr ▸ hr')
                rwa [harr] at this
              refine ⟨?_, ?_, ?_⟩
              · have hseg := seg_any_ne .success (index + 1)
                  (finalFileName fd item0 (index + 1)) (index + (j' + 1) + 1)
                  (isSkippedEv (index + (j' + 1) + 1)) (isSkippedEv_idx _) htane
                simp only [skippedIn, List.any_cons, List.any_append, hseg]
                simp only [skippedIn] at ihs
                simp [isSkippedEv, ihs]
              · have hseg := seg_countP_ne .success (index + 1)
                  (finalFileName fd item0 (index + 1)) (index + (j' + 1) + 1)
                  (isBeganEv (index + (j' + 1) + 1)) (isBeganEv_idx _) htane
                simp only [beganCount, List.countP_cons, List.countP_append, hseg]
                simp only [beganCount] at ihb
                simp [isBeganEv, ihb]
              · have hseg := seg_filter_ne .success (index + 1)
                  (finalFileName fd item0 (index + 1)) (index + (j' + 1) + 1)
                  (isStepEvOf (index + (j' + 1) + 1)) (isStepEvOf_idx _) htane
                simp only [itemSteps, List.filter_cons, List.filter_append, hseg]
                simp only [itemSteps] at ihst
                simp [isStepEvOf, htane, ihst]
          · have hsf := Outcome.isSucc_eq_false _ hsucc
            rw [runLoop_cons_fail w fd limit item0 rest index p hn hu0 hsf] at hr ⊢
            have hsegr := seg_any_ne (outcomeOf w (index + 1)) (index + 1)
              (finalFileName fd item0 (index + 1)) (index + (j' + 1) + 1)
              (isRecordEv (index + (j' + 1) + 1)) (isRecordEv_idx _) htane
            have hr' : recordIn (runLoop w fd limit rest (index + 1) p).evs
                (index + (j' + 1) + 1) = true := by
              rw [recordIn] at hr
              simp only [List.any_cons, List.any_append, hheadr, hsegr, Bool.false_or] at hr
              exact hr
            obtain ⟨ihs, ihb, ihst⟩ := by
              have := ih (index + 1) p j' item hg hnul hu (harr ▸ hr')
              rwa [harr] at this
            refine ⟨?_, ?_, ?_⟩
            · have hseg := seg_any_ne (outcomeOf w (index + 1)) (index + 1)
                (finalFileName fd item0 (index + 1)) (index + (j' + 1) + 1)
                (isSkippedEv (index + (j' + 1) + 1)) (isSkippedEv_idx _) htane
              simp only [skippedIn, List.any_cons, List.any_append, hseg]
              simp only [skippedIn] at ihs
              simp [isSkippedEv, ihs]
            · have hseg := seg_countP_ne (outcomeOf w (index + 1)) (index + 1)
                (finalFileName fd item0 (index + 1)) (index + (j' + 1) + 1)
                (isBeganEv (index + (j' + 1) + 1)) (isBeganEv_idx _) htane
              simp only [beganCount, List.countP_cons, List.countP_append, hseg]
              simp only [beganCount] at ihb
              simp [isBeganEv, ihb]
            · have hseg := seg_filter_ne (outcomeOf w (index + 1)) (index + 1)
                (finalFileName fd item0 (index + 1)) (index + (j' + 1) + 1)
                (isStepEvOf (index + (j' + 1) + 1)) (isStepEvOf_idx _) htane
              simp only [itemSteps, List.filter_cons, List.filter_append, hseg]
              simp only [itemSteps] at ihst
              simp [isStepEvOf, htane, ihst]
        · rw [Bool.not_eq_true] at hu0
          rw [runLoop_cons_skip w fd limit item0 rest index p hn hu0] at hr ⊢
          have hheads : isSkippedEv (index + (j' + 1) + 1)
              (Ev.skippedNoUrl (index + 1)) = false := by
            simp [isSkippedEv]
          have hr' : recordIn (runLoop w fd limit rest (index + 1) p).evs
              (index + (j' + 1) + 1) = true := by
            rw [recordIn] at hr
            have h2 : isRecordEv (index + (j' + 1) + 1)
                (Ev.skippedNoUrl (index + 1)) = false := rfl
            simp only [List.any_cons, hheadr, h2, Bool.false_or] at hr
            exact hr
          obtain ⟨ihs, ihb, ihst⟩ := by
            have := ih (index + 1) p j' item hg hnul hu (harr ▸ hr')
            rwa [harr] at this
          refine ⟨?_, ?_, ?_⟩
          · simp only [skippedIn, List.any_cons, hheads]
            simp only [skippedIn] at ihs
            simp [isSkippedEv, ihs]
          · simp only [beganCount, List.countP_cons]
            simp only [beganCount] at ihb
            simp [isBeganEv, ihb]
          · simp only [itemSteps, List.filter_cons]
            simp only [itemSteps] at ihst
            simp [isStepEvOf, htane, ihst]

theorem runLoop_c6 (w : World) (fd : String) (limit : JSLimit) :
    ∀ (items : List JV) (index p j : Nat), ∃ (k : Nat) (pth : String),
      itemSteps (runLoop w fd limit items index p).evs j = (canonSteps j pth).take k := by
  intro items
  induction items with
  | nil =>
    intro index p j
    exact ⟨0, "", by simp [itemSteps, runLoop_nil, canonSteps]⟩
  | cons item rest ih =>
    intro index p j
    by_cases hn : isNullJV item = true
    · rw [runLoop_cons_null w fd limit item rest index p hn]
      by_cases hji : j = index + 1
      · subst hji
        refine ⟨1, "", ?_⟩
        simp [itemSteps, canonSteps, isStepEvOf, List.filter]
      · have hne : ¬(index + 1 = j) := fun he => hji he.symm
        have hbeq : (index + 1 == j) = false := by simp [hne]
        refine ⟨0, "", ?_⟩
        simp [itemSteps, canonSteps, isStepEvOf, List.filter, hbeq]
    · rw [Bool.not_eq_true] at hn
      by_cases hu : truthy (jget item "imageUrl") = true
      · by_cases hsucc : outcomeOf w (index + 1) = .success
        · by_cases hl : limitHit limit (p + 1) = true
          · rw [runLoop_cons_succ_break w fd limit item rest index p hn hu hsucc hl]
            by_cases hji : j = index + 1
            · subst hji
              refine ⟨6, finalFileName fd item (index + 1), ?_⟩
              simp [itemSteps, canonSteps, segFor, isStepEvOf, List.filter]
            · have hne : ¬(index + 1 = j) := fun he => hji he.symm
              refine ⟨0, "", ?_⟩
              have hseg := seg_filter_ne .success (index + 1)
                (finalFileName fd item (index + 1)) j
                (isStepEvOf j) (isStepEvOf_idx j) hne
              simp only [itemSteps, List.filter_cons, hseg]
              simp [isStepEvOf, hne, canonSteps]
          · rw [Bool.not_eq_true] at hl
            rw [runLoop_cons_succ_cont w fd limit item rest index p hn hu hsucc hl]
            by_cases hji : j = index + 1
            · subst hji
              refine ⟨6, finalFileName fd item (index + 1), ?_⟩
              have htail := runLoop_filter_low w fd limit rest (index + 1) (p + 1) (index + 1)
                (isStepEvOf (index + 1)) (isStepEvOf_idx _) (by omega)
              simp only [itemSteps, List.filter_cons, List.filter_append, htail]
              simp [canonSteps, segFor, isStepEvOf, List.filter]
            · have hne : ¬(index + 1 = j) := fun he => hji he.symm
              obtain ⟨k, pth, ihk⟩ := ih (index + 1) (p + 1) j
              refine ⟨k, pth, ?_⟩
              have hseg := seg_filter_ne .success (index + 1)
                (finalFileName fd item (index + 1)) j
                (isStepEvOf j) (isStepEvOf_idx j) hne
              simp only [itemSteps, List.filter_cons, List.filter_append, hseg]
              simp only [itemSteps] at ihk
              simp [isStepEvOf, hne, ihk]
        · have hsf := Outcome.isSucc_eq_false _ hsucc
          have hns := outcomeOf_ne_skipped w (index + 1)
          rw [runLoop_cons_fail w fd limit item rest index p hn hu hsf]
          by_cases hji : j = index + 1
          · subst hji
            have htail := runLoop_filter_low w fd limit rest (index + 1) p (index + 1)
              (isStepEvOf (index + 1)) (isStepEvOf_idx _) (by omega)
            cases ho2 : outcomeOf w (index + 1) with
            | skipped => exact absurd ho2 hns
            | success => exact absurd ho2 hsucc
            | failDownload =>
              refine ⟨1, "", ?_⟩
              simp only [ho2, itemSteps, List.filter_cons, List.filter_append, htail]
              simp [canonSteps, segFor, isStepEvOf, List.filter]
            | failApi =>
              refine ⟨2, "", ?_⟩
              simp only [ho2, itemSteps, List.filter_cons, List.filter_append, htail]
              simp [canonSteps, segFor, isStepEvOf, List.filter]
            | failDecode =>
              refine ⟨3, "", ?_⟩
              simp only [ho2, itemSteps, List.filter_cons, List.filter_append, htail]
              simp [canonSteps, segFor, isStepEvOf, List.filter]
            | failWrite =>
              refine ⟨4, "", ?_⟩
              simp only [ho2, itemSteps, List.filter_cons, List.filter_append, htail]
              simp [canonSteps, segFor, isStepEvOf, List.filter]
          · have hne : ¬(index + 1 = j) := fun he => hji he.symm
            obtain ⟨k, pth, ihk⟩ := ih (index + 1) p j
            refine ⟨k, pth, ?_⟩
            have hseg := seg_filter_ne (outcomeOf w (index + 1)) (index + 1)
              (finalFileName fd item (index + 1)) j
              (isStepEvOf j) (isStepEvOf_idx j) hne
            simp only [itemSteps, List.filter_cons, List.filter_append, hseg]
            simp only [itemSteps] at ihk
            simp [isStepEvOf, hne, ihk]
      · rw [Bool.not_eq_true] at hu
        rw [runLoop_cons_skip w fd limit item rest index p hn hu]
        by_cases hji : j = index + 1
        · subst hji
          refine ⟨1, "", ?_⟩
          have htail := runLoop_filter_low w fd limit rest (index + 1) p (index + 1)
            (isStepEvOf (index + 1)) (isStepEvOf_idx _) (by omega)
          simp only [itemSteps, List.filter_cons, htail]
          simp [canonSteps, isStepEvOf, List.filter]
        · have hne : ¬(index + 1 = j) := fun he => hji he.symm
          obtain ⟨k, pth, ihk⟩ := ih (index + 1) p j
          refine ⟨k, pth, ?_⟩
          simp only [itemSteps, List.filter_cons]
          simp only [itemSteps] at ihk
          simp [isStepEvOf, hne, ihk]

theorem runLoop_c3 (w : World) (fd : String) (limit : JSLimit) :
    ∀ (items : List JV) (index p : Nat) (o : JV),
      o ∈ (runLoop w fd limit items index p).outs →
      ∃ (j : Nat) (item : JV), items.get? j = some item
        ∧ truthy (jget item "imageUrl") = true
        ∧ stepsOk w (index + j + 1) = true
        ∧ o = setField item "localUpdatedFile"
            (.str (finalFileName fd item (index + j + 1))) := by
  intro items
  induction items with
  | nil =>
    intro index p o ho
    rw [runLoop_nil] at ho
    simp at ho
  | cons item rest ih =>
    intro index p o ho
    by_cases hn : isNullJV item = true
    · rw [runLoop_cons_null w fd limit item rest index p hn] at ho
      simp at ho
    · rw [Bool.not_eq_true] at hn
      by_cases hu : truthy (jget item "imageUrl") = true
      · by_cases hsucc : outcomeOf w (index + 1) = .success
        · have hst : stepsOk w (index + 1) = true := (outcomeOf_success_iff w _).mp hsucc
          by_cases hl : limitHit limit (p + 1) = true
          · rw [runLoop_cons_succ_break w fd limit item rest index p hn hu hsucc hl] at ho
            simp only [List.mem_singleton] at ho
            exact ⟨0, item, rfl, hu, hst, ho⟩
          · rw [Bool.not_eq_true] at hl
            rw [runLoop_cons_succ_cont w fd limit item rest index p hn hu hsucc hl] at ho
            rcases List.mem_cons.mp ho with rfl | ho
            · exact ⟨0, item, rfl, hu, hst, rfl⟩
            · obtain ⟨j', item', hget, hu', hst', heq⟩ := ih (index + 1) (p + 1) o ho
              refine ⟨j' + 1, item', by simpa using hget, hu', ?_, ?_⟩
              · rw [show index + (j' + 1) + 1 = index + 1 + j' + 1 by omega]
                exact hst'
              · rw [show index + (j' + 1) + 1 = index + 1 + j' + 1 by omega]
                exact heq
        · have hsf := Outcome.isSucc_eq_false _ hsucc
          rw [runLoop_cons_fail w fd limit item rest index p hn hu hsf] at ho
          obtain ⟨j', item', hget, hu', hst', heq⟩ := ih (index + 1) p o ho
          refine ⟨j' + 1, item', by simpa using hget, hu', ?_, ?_⟩
          · rw [show index + (j' + 1) + 1 = index + 1 + j' + 1 by omega]
            exact hst'
          · rw [show index + (j' + 1) + 1 = index + 1 + j' + 1 by omega]
            exact heq
      · rw [Bool.not_eq_true] at hu
        rw [runLoop_cons_skip w fd limit item rest index p hn hu] at ho
        obtain ⟨j', item', hget, hu', hst', heq⟩ := ih (index + 1) p o ho
        refine ⟨j' + 1, item', by simpa using hget, hu', ?_, ?_⟩
        · rw [show index + (j' + 1) + 1 = index + 1 + j' + 1 by omega]
          exact hst'
        · rw [show index + (j' + 1) + 1 = index + 1 + j' + 1 by omega]
          exact heq

theorem setFieldList_append (fs : List (String × JV)) (k : String) (v : JV)
    (h : fs.any (fun q => q.1 == k) = false) :
    setFieldList fs k v = fs ++ [(k, v)] := by
  induction fs with
  | nil => rfl
  | cons q rest ih =>
    simp only [List.any_cons, Bool.or_eq_false_iff] at h
    obtain ⟨h1, h2⟩ := h
    have h1' : q.1 ≠ k := by simpa using h1
    cases q with
    | mk k' v' =>
      simp only [setFieldList]
      rw [if_neg (by simpa using h1')]
      rw [ih h2]
      simp

theorem lookupField_setFieldList_same (fs : List (String × JV)) (k : String) (v : JV) :
    lookupField (setFieldList fs k v) k = v := by
  induction fs with
  | nil => simp [setFieldList, lookupField]
  | cons q rest ih =>
    cases q with
    | mk k' v' =>
      by_cases h : k' = k
      · simp [setFieldList, lookupField, h]
      · simp [setFieldList, lookupField, h, ih]

theorem lookupField_setFieldList_ne (fs : List (String × JV)) (k : String) (v : JV)
    (key : String) (h : key ≠ k) :
    lookupField (setFieldList fs k v) key = lookupField fs key := by
  induction fs with
  | nil =>
    simp only [setFieldList, lookupField]
    rw [if_neg (fun he => h he.symm)]
  | cons q rest ih =>
    cases q with
    | mk k' v' =>
      simp only [setFieldList]
      by_cases h2 : k' = k
      · rw [if_pos h2]
        subst h2
        simp only [lookupField]
        have hkk : ¬(k' = key) := fun he => h he.symm
        rw [if_neg hkk, if_neg hkk]
      · rw [if_neg h2]
        simp only [lookupField]
        by_cases h3 : k' = key
        · rw [if_pos h3, if_pos h3]
        · rw [if_neg h3, if_neg h3]
          exact ih

theorem jget_setField_same (item : JV) (k : String) (v : JV) :
    jget (setField item k v) k = v := by
  cases item <;> simp [setField, jget, lookupField, lookupField_setFieldList_same]

theorem jget_setField_ne (item : JV) (k : String) (v : JV) (key : String) (h : key ≠ k) :
    jget (setField item k v) key = jget item key := by
  cases item
  case obj fs =>
    simp only [setField, jget]
    exact lookupField_setFieldList_ne fs k v key h
  all_goals
    simp only [setField, jget, lookupField]
    rw [if_neg (fun he => h he.symm)]

theorem readJsonlLines_spec (parse : String → Option JV) :
    ∀ ls : List String,
      (readJsonlLines parse ls).1 = ls.filterMap parse
      ∧ (readJsonlLines parse ls).2 = ls.filter (fun l => (parse l).isNone) := by
  intro ls
  induction ls with
  | nil => exact ⟨rfl, rfl⟩
  | cons l rest ih =>
    obtain ⟨ih1, ih2⟩ := ih
    cases hp : parse l with
    | none => simp [readJsonlLines, hp, ih1, ih2, List.filterMap_cons]
    | some v => simp [readJsonlLines, hp, ih1, ih2, List.filterMap_cons]

theorem runBatch_manifest (w : World) (fd : String) (limit : JSLimit) (items : List JV)
    (h : (runBatch w fd limit items).crash = false) :
    (runBatch w fd limit items).trace.getLast?
      = some (.manifest (fd ++ "/data.json")) := by
  by_cases hc : (runLoop w fd limit items 0 0).crash = true
  · rw [runBatch_crash] at h
    rw [hc] at h
    cases h
  · simp [runBatch, hc, List.getLast?_concat]

theorem orElse_some {α : Type} (a : Option α) (b : Unit → Option α) (r : α)
    (h : (a.orElse b) = some r) : a = some r ∨ b () = some r := by
  cases a <;> simp_all [Option.orElse]

theorem firstSome_append {α : Type} (a b : List (Option α)) :
    firstSome (a ++ b) = match firstSome a with
      | some r => some r
      | none => firstSome b := by
  induction a with
  | nil => rfl
  | cons x rest ih => cases x <;> simp [firstSome, ih]

theorem firstSome_none_iff {α : Type} (l : List (Option α)) :
    firstSome l = none ↔ ∀ x ∈ l, x = none := by
  induction l with
  | nil => simp [firstSome]
  | cons x rest ih => cases x <;> simp [firstSome, ih]

theorem imagesLoop_eq (f : JV → Bool) :
    ∀ l : List JV, imagesLoop f l = firstSome (l.map (imageEntryCheck f)) := by
  intro l
  induction l with
  | nil => rfl
  | cons img rest ih =>
    cases h : imageEntryCheck f img <;> simp [imagesLoop, firstSome, h, ih]

theorem contentLoop_eq (f : JV → Bool) :
    ∀ l : List JV, contentLoop f l = firstSome (l.map (contentPartCheck f)) := by
  intro l
  induction l with
  | nil => rfl
  | cons part rest ih =>
    cases h : contentPartCheck f part <;> simp [contentLoop, firstSome, h, ih]

theorem extract_eq_orSpecDecode (f : JV → Bool) (json : JV) :
    extractImageBufferFromOpenRouterResponse f json = orSpecDecode f json := by
  simp only [extractImageBufferFromOpenRouterResponse, orSpecDecode, shapeChecks]
  rw [firstSome_append, firstSome_append]
  have hA : (match jget (jget (jsIndex (jget json "choices") 0) "message") "images" with
      | JV.arr imgs => imagesLoop f imgs
      | _ => none)
      = firstSome (match jget (jget (jsIndex (jget json "choices") 0) "message") "images" with
        | JV.arr imgs => imgs.map (imageEntryCheck f)
        | _ => []) := by
    cases jget (jget (jsIndex (jget json "choices") 0) "message") "images" <;>
      simp [imagesLoop_eq, firstSome]
  have hB : (match jget (jget (jsIndex (jget json "choices") 0) "message") "content" with
      | JV.arr parts => contentLoop f parts
      | _ => none)
      = firstSome (match jget (jget (jsIndex (jget json "choices") 0) "message") "content" with
        | JV.arr parts => parts.map (contentPartCheck f)
        | _ => []) := by
    cases jget (jget (jsIndex (jget json "choices") 0) "message") "content" <;>
      simp [contentLoop_eq, firstSome]
  rw [← hA, ← hB]
  cases hia : (match jget (jget (jsIndex (jget json "choices") 0) "message") "images" with
      | JV.arr imgs => imagesLoop f imgs
      | _ => none) with
  | some r => simp
  | none =>
    simp only
    cases hib : (match jget (jget (jsIndex (jget json "choices") 0) "message") "content" with
        | JV.arr parts => contentLoop f parts
        | _ => none) with
    | some r => simp
    | none =>
      simp only
      cases hic : stringContentCheck
          (jget (jget (jsIndex (jget json "choices") 0) "message") "content") with
      | some r => simp [firstSome]
      | none => simp [firstSome]

theorem imageEntryCheck_shape (f : JV → Bool) (img : JV) (r : Except DErr Buf)
    (h : imageEntryCheck f img = some r) :
    (∃ b, r = .ok b) ∨ (∃ u, r = .error (.fetchFailed u)) := by
  simp only [imageEntryCheck] at h
  split at h
  · rw [Option.some_inj] at h
    split at h
    · exact Or.inl ⟨_, h.symm⟩
    · split at h
      · exact Or.inl ⟨_, h.symm⟩
      · exact Or.inr ⟨_, h.symm⟩
  · split at h
    · split at h
      · exact Or.inl ⟨_, (Option.some_inj.mp h).symm⟩
      · cases h
    · cases h

theorem contentPartCheck_shape (f : JV → Bool) (part : JV) (r : Except DErr Buf)
    (h : contentPartCheck f part = some r) :
    (∃ b, r = .ok b) ∨ (∃ u, r = .error (.fetchFailed u)) := by
  simp only [contentPartCheck] at h
  rcases orElse_some _ _ _ h with h | h
  · split at h
    · split at h
      · exact Or.inl ⟨_, (Option.some_inj.mp h).symm⟩
      · split at h
        · split at h
          · exact Or.inl ⟨_, (Option.some_inj.mp h).symm⟩
          · cases h
        · cases h
    · cases h
  · rcases orElse_some _ _ _ h with h | h
    · split at h
      · rw [Option.some_inj] at h
        split at h
        · exact Or.inl ⟨_, h.symm⟩
        · exact Or.inr ⟨_, h.symm⟩
      · cases h
    · split at h
      · split at h
        · split at h
          · exact Or.inl ⟨_, (Option.some_inj.mp h).symm⟩
          · cases h
        · cases h
      · cases h

theorem stringContentCheck_shape (content : JV) (r : Except DErr Buf)
    (h : stringContentCheck content = some r) : ∃ b, r = .ok b := by
  simp only [stringContentCheck] at h
  split at h
  · split at h
    · exact ⟨_, (Option.some_inj.mp h).symm⟩
    · cases h
  · cases h

theorem shapeChecks_no_noImage (f : JV → Bool) (json : JV) :
    ∀ x ∈ shapeChecks f json, x ≠ some (.error .noImage) := by
  intro x hx hcon
  subst hcon
  simp only [shapeChecks] at hx
  rcases List.mem_append.mp hx with hx | hx
  · rcases List.mem_append.mp hx with hx | hx
    · have : ∃ img, imageEntryCheck f img = some (.error .noImage) := by
        split at hx
        · obtain ⟨img, _, himg⟩ := List.mem_map.mp hx
          exact ⟨img, himg⟩
        · simp at hx
      obtain ⟨img, himg⟩ := this
      rcases imageEntryCheck_shape f img _ himg with ⟨b, hb⟩ | ⟨u, hu⟩
      · cases hb
      · simp at hu
    · have : ∃ part, contentPartCheck f part = some (.error .noImage) := by
        split at hx
        · obtain ⟨part, _, hp⟩ := List.mem_map.mp hx
          exact ⟨part, hp⟩
        · simp at hx
      obtain ⟨part, hp⟩ := this
      rcases contentPartCheck_shape f part _ hp with ⟨b, hb⟩ | ⟨u, hu⟩
      · cases hb
      · simp at hu
  · simp only [List.mem_singleton] at hx
    obtain ⟨b, hb⟩ := stringContentCheck_shape _ _ hx.symm
    simp at hb

theorem firstSome_mem {α : Type} (l : List (Option α)) (r : α) (h : firstSome l = some r) :
    some r ∈ l := by
  induction l with
  | nil => cases h
  | cons x rest ih =>
    cases x with
    | some v =>
      simp only [firstSome, Option.some_inj] at h
      subst h
      exact List.mem_cons_self _ _
    | none =>
      simp only [firstSome] at h
      exact List.mem_cons_of_mem _ (ih h)

theorem extract_noImage_iff (f : JV → Bool) (json : JV) :
    extractImageBufferFromOpenRouterResponse f json = .error .noImage
      ↔ firstSome (shapeChecks f json) = none := by
  rw [extract_eq_orSpecDecode]
  unfold orSpecDecode
  cases hfs : firstSome (shapeChecks f json) with
  | none => simp
  | some r =>
    simp only
    constructor
    · intro h
      subst h
      exact absurd rfl (shapeChecks_no_noImage f json _ (firstSome_mem _ _ hfs))
    · intro h
      cases h

theorem runBatch_recordIn (w : World) (fd : String) (limit : JSLimit) (items : List JV)
    (j : Nat) : recordIn (runBatch w fd limit items).trace j
      = recordIn (runLoop w fd limit items 0 0).evs j := by
  simp only [recordIn]
  exact runBatch_any w fd limit items _ (manifest_not_record j)

theorem runBatch_skippedIn (w : World) (fd : String) (limit : JSLimit) (items : List JV)
    (j : Nat) : skippedIn (runBatch w fd limit items).trace j
      = skippedIn (runLoop w fd limit items 0 0).evs j := by
  simp only [skippedIn]
  exact runBatch_any w fd limit items _ (manifest_not_skipped j)

theorem runBatch_beganIn (w : World) (fd : String) (limit : JSLimit) (items : List JV)
    (j : Nat) : beganIn (runBatch w fd limit items).trace j
      = beganIn (runLoop w fd limit items 0 0).evs j := by
  simp only [beganIn]
  exact runBatch_any w fd limit items _ (manifest_not_began j)

theorem runBatch_failIn (w : World) (fd : String) (limit : JSLimit) (items : List JV)
    (j : Nat) : failIn (runBatch w fd limit items).trace j
      = failIn (runLoop w fd limit items 0 0).evs j := by
  simp only [failIn]
  exact runBatch_any w fd limit items _ (manifest_not_fail j)

theorem runBatch_appendIn (w : World) (fd : String) (limit : JSLimit) (items : List JV)
    (j : Nat) : appendIn (runBatch w fd limit items).trace j
      = appendIn (runLoop w fd limit items 0 0).evs j := by
  simp only [appendIn]
  exact runBatch_any w fd limit items _ (manifest_not_appendAt j)

theorem runBatch_writeIn (w : World) (fd : String) (limit : JSLimit) (items : List JV)
    (j : Nat) (pth : String) : writeIn (runBatch w fd limit items).trace j pth
      = writeIn (runLoop w fd limit items 0 0).evs j pth := by
  simp only [writeIn]
  exact runBatch_any w fd limit items _ (manifest_not_write j pth)

theorem runBatch_recordCount (w : World) (fd : String) (limit : JSLimit) (items : List JV)
    (j : Nat) : recordCount (runBatch w fd limit items).trace j
      = recordCount (runLoop w fd limit items 0 0).evs j := by
  simp only [recordCount]
  exact runBatch_countP w fd limit items _ (manifest_not_record j)

theorem runBatch_beganCount (w : World) (fd : String) (limit : JSLimit) (items : List JV)
    (j : Nat) : beganCount (runBatch w fd limit items).trace j
      = beganCount (runLoop w fd limit items 0 0).evs j := by
  simp only [beganCount]
  exact runBatch_countP w fd limit items _ (manifest_not_began j)

theorem runBatch_appendTotal (w : World) (fd : String) (limit : JSLimit) (items : List JV) :
    appendTotal (runBatch w fd limit items).trace
      = appendTotal (runLoop w fd limit items 0 0).evs := by
  simp only [appendTotal]
  exact runBatch_countP w fd limit items _ manifest_not_append

theorem runBatch_appendsBelow (w : World) (fd : String) (limit : JSLimit) (items : List JV)
    (j : Nat) : appendsBelow (runBatch w fd limit items).trace j
      = appendsBelow (runLoop w fd limit items 0 0).evs j := by
  simp only [appendsBelow]
  exact runBatch_countP w fd limit items _ (manifest_not_appendBelow j)

theorem runBatch_itemSteps (w : World) (fd : String) (limit : JSLimit) (items : List JV)
    (j : Nat) : itemSteps (runBatch w fd limit items).trace j
      = itemSteps (runLoop w fd limit items 0 0).evs j := by
  simp only [itemSteps]
  exact runBatch_filter w fd limit items _ (manifest_not_step j)

theorem runBatch_limit_congr (w : World) (fd : String) (l1 l2 : JSLimit)
    (h : ∀ q, limitHit l1 q = limitHit l2 q) (items : List JV) :
    runBatch w fd l1 items = runBatch w fd l2 items := by
  unfold runBatch
  rw [runLoop_limit_congr w fd l1 l2 h items 0 0]

theorem runLoop_began_record (w : World) (fd : String) (limit : JSLimit) :
    ∀ (items : List JV) (index p j : Nat),
      beganIn (runLoop w fd limit items index p).evs j = true →
      recordIn (runLoop w fd limit items index p).evs j = true := by
  intro items
  induction items with
  | nil =>
    intro index p j hb
    rw [runLoop_nil] at hb
    simp [beganIn] at hb
  | cons item rest ih =>
    intro index p j hb
    by_cases hji : j = index + 1
    · subst hji
      exact runLoop_head_record w fd limit item rest index p
    · have hji' : index + 1 ≠ j := fun he => hji he.symm
      by_cases hn : isNullJV item = true
      · rw [runLoop_cons_null w fd limit item rest index p hn] at hb
        simp [beganIn, isBeganEv] at hb
      · rw [Bool.not_eq_true] at hn
        by_cases hu : truthy (jget item "imageUrl") = true
        · by_cases hsucc : outcomeOf w (index + 1) = .success
          · by_cases hl : limitHit limit (p + 1) = true
            · rw [runLoop_cons_succ_break w fd limit item rest index p hn hu hsucc hl] at hb
              exfalso
              have hseg := seg_any_ne .success (index + 1)
                (finalFileName fd item (index + 1)) j (isBeganEv j) (isBeganEv_idx j) hji'
              simp [beganIn, isBeganEv, hseg] at hb
            · rw [Bool.not_eq_true] at hl
              rw [runLoop_cons_succ_cont w fd limit item rest index p hn hu hsucc hl] at hb ⊢
              have hsegb := seg_any_ne .success (index + 1)
                (finalFileName fd item (index + 1)) j (isBeganEv j) (isBeganEv_idx j) hji'
              have hb' : beganIn (runLoop w fd limit rest (index + 1) (p + 1)).evs j = true := by
                simp [beganIn, isBeganEv, hsegb, List.any_append] at hb
                simpa [beganIn] using hb
              have hr := ih (index + 1) (p + 1) j hb'
              have hsegr := seg_any_ne .success (index + 1)
                (finalFileName fd item (index + 1)) j (isRecordEv j) (isRecordEv_idx j) hji'
              simp only [recordIn, List.any_cons, List.any_append, hsegr]
              simp only [recordIn] at hr
              simp [isRecordEv, hr]
          · have hsf := Outcome.isSucc_eq_false _ hsucc
            rw [runLoop_cons_fail w fd limit item rest index p hn hu hsf] at hb ⊢
            have hsegb := seg_any_ne (outcomeOf w (index + 1)) (index + 1)
              (finalFileName fd item (index + 1)) j (isBeganEv j) (isBeganEv_idx j) hji'
            have hb' : beganIn (runLoop w fd limit rest (index + 1) p).evs j = true := by
              simp [beganIn, isBeganEv, hsegb, List.any_append] at hb
              simpa [beganIn] using hb
            have hr := ih (index + 1) p j hb'
            have hsegr := seg_any_ne (outcomeOf w (index + 1)) (index + 1)
              (finalFileName fd item (index + 1)) j (isRecordEv j) (isRecordEv_idx j) hji'
            simp only [recordIn, List.any_cons, List.any_append, hsegr]
            simp only [recordIn] at hr
            simp [isRecordEv, hr]
        · rw [Bool.not_eq_true] at hu
          rw [runLoop_cons_skip w fd limit item rest index p hn hu] at hb ⊢
          have hb' : beganIn (runLoop w fd limit rest (index + 1) p).evs j = true := by
            simp [beganIn, isBeganEv] at hb
            simpa [beganIn] using hb
          have hr := ih (index + 1) p j hb'
          simp only [recordIn, List.any_cons]
          simp only [recordIn] at hr
          simp [isRecordEv, hr]

/-- C1: For every input record of either backend (the World oracles
cover both), if processing the record fails at any step - download,
API call, response decode, or final file write (stepsOk is false) -
the failure is caught and logged (a fail event), the loop continues
with the next record (the next loop head is reached), the record is
read and attempted exactly once (no retry), and no output record is
appended for it. -/
theorem c1_failure_caught_and_continue (w : World) (fd : String) (limit : JSLimit)
    (items : List JV) (j : Nat)
    (hb : beganIn (runBatch w fd limit items).trace j = true)
    (hf : stepsOk w j = false) :
    failIn (runBatch w fd limit items).trace j = true
    ∧ recordCount (runBatch w fd limit items).trace j = 1
    ∧ beganCount (runBatch w fd limit items).trace j = 1
    ∧ appendIn (runBatch w fd limit items).trace j = false
    ∧ (j + 1 ≤ items.length →
        recordIn (runBatch w fd limit items).trace (j + 1) = true) := by
  rw [runBatch_beganIn] at hb
  obtain ⟨h1, h2, h3, h4, h5⟩ := runLoop_c1 w fd limit items 0 0 j hb hf
  rw [runBatch_failIn, runBatch_recordCount, runBatch_beganCount, runBatch_appendIn,
    runBatch_recordIn]
  exact ⟨h1, h2, h3, h4, fun hlen => h5 (by omega)⟩

/-- C1 witness: a concrete two-record run where record 1 fails its
download; the logged failure, single attempt, missing append and
reached next record all evaluate. -/
theorem c1_failure_caught_and_continue_witness :
    failIn (runBatch c1W "final" .undefined c1Items).trace 1 = true
    ∧ recordCount (runBatch c1W "final" .undefined c1Items).trace 1 = 1
    ∧ beganCount (runBatch c1W "final" .undefined c1Items).trace 1 = 1
    ∧ appendIn (runBatch c1W "final" .undefined c1Items).trace 1 = false
    ∧ recordIn (runBatch c1W "final" .undefined c1Items).trace 2 = true := by
  obtain ⟨h1, h2, h3, h4, h5⟩ :=
    c1_failure_caught_and_continue c1W "final" .undefined c1Items 1 (by rfl) (by rfl)
  exact ⟨h1, h2, h3, h4, h5 (by decide)⟩

/-- C2: In every run of either backend the outputs array holds exactly
one entry per append event; a reached record is appended exactly when
its download, API call (with decodable image) and final write all
succeeded; and every append belongs to an attempted record. -/
theorem c2_manifest_exactly_successes (w : World) (fd : String) (limit : JSLimit)
    (items : List JV) :
    (runBatch w fd limit items).outputs.length
        = appendTotal (runBatch w fd limit items).trace
    ∧ (∀ j, beganIn (runBatch w fd limit items).trace j = true →
        (appendIn (runBatch w fd limit items).trace j = true ↔ stepsOk w j = true))
    ∧ (∀ j, appendIn (runBatch w fd limit items).trace j = true →
        beganIn (runBatch w fd limit items).trace j = true) := by
  obtain ⟨h1, h2, h3⟩ := runLoop_c2 w fd limit items 0 0
  refine ⟨?_, ?_, ?_⟩
  · rw [runBatch_outputs, runBatch_appendTotal]
    simpa [appendTotal] using h1
  · intro j hb
    rw [runBatch_beganIn] at hb
    rw [runBatch_appendIn]
    exact h2 j hb
  · intro j ha
    rw [runBatch_appendIn] at ha
    rw [runBatch_beganIn]
    exact h3 j ha

/-- C2 witness: a two-record run with one success and one failure; the
length equation and the appended-iff-succeeded equivalence evaluate at
record 1. -/
theorem c2_manifest_exactly_successes_witness :
    (runBatch mixW "final" .undefined twoItems).outputs.length
        = appendTotal (runBatch mixW "final" .undefined twoItems).trace
    ∧ (appendIn (runBatch mixW "final" .undefined twoItems).trace 1 = true
        ↔ stepsOk mixW 1 = true) := by
  obtain ⟨h1, h2, -⟩ := c2_manifest_exactly_successes mixW "final" .undefined twoItems
  exact ⟨h1, h2 1 (by rfl)⟩

/-- C6: For every record position, the pipeline-step events of that
record in the trace form a prefix of the canonical order loop head ->
download -> API call -> decode -> final write -> append; so no later
step of a record ever runs before an earlier step of the same record
completes. -/
theorem c6_pipeline_step_order (w : World) (fd : String) (limit : JSLimit)
    (items : List JV) (j : Nat) :
    ∃ (k : Nat) (pth : String),
      itemSteps (runBatch w fd limit items).trace j = (canonSteps j pth).take k := by
  obtain ⟨k, pth, h⟩ := runLoop_c6 w fd limit items 0 0 j
  exact ⟨k, pth, by rw [runBatch_itemSteps]; exact h⟩

/-- C3 counterexample: an input record that already has a
localUpdatedFile passthrough field does not come out with all fields
unchanged plus one added field - the object spread overwrites the
existing field in place: the output record's localUpdatedFile no
longer holds the input's value "old". -/
theorem c3_localUpdatedFile_overwrite_counterexample :
    (runBatch okW "final" .undefined [c3Item]).outputs
      = [JV.obj [("imageUrl", JV.str "http://u"),
          ("localUpdatedFile", JV.str "final/brand_item_1.jpg")]]
    ∧ jget c3Item "localUpdatedFile" = JV.str "old"
    ∧ ("final/brand_item_1.jpg" : String) ≠ "old" :=
  ⟨rfl, rfl, by decide⟩

/-- C3 amended: every output record of a successfully processed input
record is that record with localUpdatedFile set to the final file path
- added as a new last field when absent, overwritten in place when the
input already had one - and every other field is unchanged; at the end
of every run that does not crash on a null record, the full outputs
list is written to final/data.json (the manifest write is the last
trace event), even when the list is empty. -/
theorem c3_output_record_amended (w : World) (fd : String) (limit : JSLimit)
    (items : List JV) :
    (∀ o ∈ (runBatch w fd limit items).outputs,
      ∃ (j : Nat) (item : JV), items.get? j = some item
        ∧ truthy (jget item "imageUrl") = true
        ∧ stepsOk w (j + 1) = true
        ∧ o = setField item "localUpdatedFile" (.str (finalFileName fd item (j + 1))))
    ∧ (∀ (item : JV) (k : String) (v : JV) (key : String), key ≠ k →
        jget (setField item k v) key = jget item key)
    ∧ (∀ (item : JV) (k : String) (v : JV), jget (setField item k v) k = v)
    ∧ (∀ (fs : List (String × JV)) (k : String) (v : JV),
        fs.any (fun q => q.1 == k) = false → setFieldList fs k v = fs ++ [(k, v)])
    ∧ (hasNoNull items = true →
        (runBatch w fd limit items).trace.getLast?
          = some (.manifest (fd ++ "/data.json"))) := by
  refine ⟨?_, ?_, ?_, ?_, ?_⟩
  · intro o ho
    rw [runBatch_outputs] at ho
    obtain ⟨j, item, hget, hu, hst, heq⟩ := runLoop_c3 w fd limit items 0 0 o ho
    rw [show 0 + j + 1 = j + 1 by omega] at hst heq
    exact ⟨j, item, hget, hu, hst, heq⟩
  · intro item k v key h
    exact jget_setField_ne item k v key h
  · intro item k v
    exact jget_setField_same item k v
  · intro fs k v h
    exact setFieldList_append fs k v h
  · intro hnn
    refine runBatch_manifest w fd limit items ?_
    rw [runBatch_crash]
    exact runLoop_no_crash w fd limit items 0 0 hnn

/-- C3 witness: on a concrete all-success one-record run, the single
output record is the input record tagged with the final path, and the
manifest write closes the trace. -/
theorem c3_output_record_amended_witness :
    (∃ (j : Nat) (item : JV), oneItem.get? j = some item
      ∧ truthy (jget item "imageUrl") = true
      ∧ stepsOk okW (j + 1) = true
      ∧ (JV.obj [("brand", JV.str "Acme"), ("name", JV.str "No 5"),
          ("imageUrl", JV.str "http://img.example/a.jpg"),
          ("localUpdatedFile", JV.str "final/Acme_No_5.jpg")])
          = setField item "localUpdatedFile" (.str (finalFileName "final" item (j + 1))))
    ∧ (runBatch okW "final" .undefined oneItem).trace.getLast?
        = some (.manifest ("final" ++ "/data.json")) := by
  have h := c3_output_record_amended okW "final" .undefined oneItem
  refine ⟨h.1 _ ?_, h.2.2.2.2 (by rfl)⟩
  show _ ∈ (runBatch okW "final" .undefined oneItem).outputs
  rw [show (runBatch okW "final" .undefined oneItem).outputs
    = [JV.obj [("brand", JV.str "Acme"), ("name", JV.str "No 5"),
        ("imageUrl", JV.str "http://img.example/a.jpg"),
        ("localUpdatedFile", JV.str "final/Acme_No_5.jpg")]] from rfl]
  exact List.mem_singleton.mpr rfl

/-- C4 counterexample: with a failing fetch oracle, the decoder throws
the fetch error of the matched images entry even though a later shape
in the sequence (the text part holding a data URL) yields image bytes,
refuting "it throws an error only when no shape in the sequence yields
image bytes". -/
theorem c4_fetch_error_counterexample :
    extractImageBufferFromOpenRouterResponse (fun _ => false) c4Json
      = .error (.fetchFailed (JV.str "https://img.example/x.png"))
    ∧ contentPartCheck (fun _ => false) c4TextPart
      = some (.ok (.fromB64 (JV.str "QUJD"))) :=
  ⟨rfl, rfl⟩

/-- C4 amended: the decoder is exactly the fixed ordered sequence of
shape checks (images entries, then content parts, then string content)
with first match wins; a matched shape that must fetch an http URL
propagates its fetch error immediately instead of trying later shapes,
and the "no image" error is thrown exactly when no shape check in the
sequence matches. -/
theorem c4_shape_sequence_amended (f : JV → Bool) (json : JV) :
    extractImageBufferFromOpenRouterResponse f json = orSpecDecode f json
    ∧ (extractImageBufferFromOpenRouterResponse f json = .error .noImage
        ↔ firstSome (shapeChecks f json) = none) :=
  ⟨extract_eq_orSpecDecode f json, extract_noImage_iff f json⟩

/-- C5: With --limit N (N at least 1) the run stops after N successes:
the outputs list never exceeds N entries, and any attempted record was
begun while strictly fewer than N earlier records had been appended;
with no --limit every record of the input file is reached, and every
reached record with an imageUrl is attempted. -/
theorem c5_limit_semantics (w : World) (fd : String) (items : List JV) (N : Int) :
    (1 ≤ N →
      ((runBatch w fd (.num N) items).outputs.length : Int) ≤ N
      ∧ (∀ j, beganIn (runBatch w fd (.num N) items).trace j = true →
          (appendsBelow (runBatch w fd (.num N) items).trace j : Int) < N))
    ∧ (hasNoNull items = true → ∀ (j : Nat) (item : JV), items.get? j = some item →
        recordIn (runBatch w fd .undefined items).trace (j + 1) = true
        ∧ (truthy (jget item "imageUrl") = true →
            beganIn (runBatch w fd .undefined items).trace (j + 1) = true)) := by
  constructor
  · intro hN
    constructor
    · rw [runBatch_outputs]
      obtain ⟨hlen, -, -⟩ := runLoop_c2 w fd (.num N) items 0 0
      have hle := runLoop_limit_le w fd N items 0 0 (by omega)
      rw [hlen]
      omega
    · intro j hb
      rw [runBatch_beganIn] at hb
      rw [runBatch_appendsBelow]
      have hr := runLoop_began_record w fd (.num N) items 0 0 j hb
      have hbel := runLoop_record_below w fd N items 0 0 j (by omega) hr
      simp only [appendsBelow]
      omega
  · intro hnn j item hget
    have h := runLoop_cover w fd .undefined (fun q => rfl) items 0 0 j item hnn hget
    rw [show 0 + j + 1 = j + 1 by omega] at h
    obtain ⟨hr, -, hbg⟩ := h
    refine ⟨by rw [runBatch_recordIn]; exact hr, ?_⟩
    intro hu
    rw [runBatch_beganIn]
    exact (hbg hu).1

/-- C5 witness: with limit 1 on a two-record all-success run, at most
one output is produced; without a limit, record 1 of a one-record run
is reached. -/
theorem c5_limit_semantics_witness :
    ((runBatch okW "final" (.num 1) twoItems).outputs.length : Int) ≤ 1
    ∧ recordIn (runBatch okW "final" .undefined oneItem).trace 1 = true := by
  refine ⟨((c5_limit_semantics okW "final" twoItems 1).1 (by decide)).1, ?_⟩
  exact ((c5_limit_semantics okW "final" oneItem 1).2 (by rfl) 0 c7Item (by rfl)).1

/-- C7: For every well-formed input record with an imageUrl, if its
download succeeds, the API call returns a response containing an
image, and the final file write succeeds, then the run (with no limit,
over a batch of records) writes the final image file named from the
sanitized brand and name and appends the matching manifest entry. -/
theorem c7_success_produces_outputs (w : World) (fd : String) (items : List JV)
    (j : Nat) (item : JV)
    (hnn : hasNoNull items = true)
    (hget : items.get? j = some item)
    (hu : truthy (jget item "imageUrl") = true)
    (hd : w.download (j + 1) = true)
    (hapi : (w.api (j + 1)).isImage = true)
    (hw : w.writeFinal (j + 1) = true) :
    writeIn (runBatch w fd .undefined items).trace (j + 1) (finalFileName fd item (j + 1)) = true
    ∧ appendIn (runBatch w fd .undefined items).trace (j + 1) = true
    ∧ setField item "localUpdatedFile" (.str (finalFileName fd item (j + 1)))
        ∈ (runBatch w fd .undefined items).outputs := by
  have hst : stepsOk w (j + 1) = true := by simp [stepsOk, hd, hapi, hw]
  have hsucc : outcomeOf w (j + 1) = .success := (outcomeOf_success_iff w _).mpr hst
  have h := runLoop_cover w fd .undefined (fun q => rfl) items 0 0 j item hnn hget
  rw [show 0 + j + 1 = j + 1 by omega] at h
  obtain ⟨-, -, hbg⟩ := h
  obtain ⟨-, h2⟩ := hbg hu
  obtain ⟨hwv, hap, hmem⟩ := h2 hsucc
  exact ⟨by rw [runBatch_writeIn]; exact hwv,
    by rw [runBatch_appendIn]; exact hap,
    by rw [runBatch_outputs]; exact hmem⟩

/-- C7 witness: a concrete all-success one-record run produces the
write of final/Acme_No_5.jpg and the matching manifest entry. -/
theorem c7_success_produces_outputs_witness :
    writeIn (runBatch okW "final" .undefined oneItem).trace 1
        (finalFileName "final" c7Item 1) = true
    ∧ appendIn (runBatch okW "final" .undefined oneItem).trace 1 = true
    ∧ setField c7Item "localUpdatedFile" (.str (finalFileName "final" c7Item 1))
        ∈ (runBatch okW "final" .undefined oneItem).outputs :=
  c7_success_produces_outputs okW "final" oneItem 0 c7Item rfl rfl rfl rfl rfl rfl

/-- C8: readJsonl yields exactly the lines that parse, in input order,
after dropping empty lines, and records the failing lines as warnings
(the generator is a total function, so a malformed line never raises
or aborts); separately, a reached non-null record without an imageUrl
is skipped with a warning - it is never begun and produces no pipeline
step beyond its loop head. -/
theorem c8_readJsonl_semantics :
    (∀ (parse : String → Option JV) (content : String),
      (readJsonl parse content).1
          = ((splitLines content).filter (fun l => l != "")).filterMap parse
      ∧ (readJsonl parse content).2
          = ((splitLines content).filter (fun l => l != "")).filter
              (fun l => (parse l).isNone))
    ∧ (∀ (w : World) (fd : String) (limit : JSLimit) (items : List JV) (j : Nat) (item : JV),
        items.get? j = some item → isNullJV item = false →
        truthy (jget item "imageUrl") = false →
        recordIn (runBatch w fd limit items).trace (j + 1) = true →
        skippedIn (runBatch w fd limit items).trace (j + 1) = true
        ∧ beganCount (runBatch w fd limit items).trace (j + 1) = 0
        ∧ itemSteps (runBatch w fd limit items).trace (j + 1) = [.record (j + 1)]) := by
  constructor
  · intro parse content
    exact readJsonlLines_spec parse _
  · intro w fd limit items j item hget hnul hu hr
    rw [runBatch_recordIn] at hr
    have h := runLoop_c8skip w fd limit items 0 0 j item hget hnul hu
      (by rw [show 0 + j + 1 = j + 1 by omega]; exact hr)
    rw [show 0 + j + 1 = j + 1 by omega] at h
    obtain ⟨h1, h2, h3⟩ := h
    exact ⟨by rw [runBatch_skippedIn]; exact h1,
      by rw [runBatch_beganCount]; exact h2,
      by rw [runBatch_itemSteps]; exact h3⟩

/-- C8 witness: the yielded lines of a concrete four-line file equal
the parseable nonempty lines, and a concrete record without imageUrl
is skipped with a warning. -/
theorem c8_readJsonl_semantics_witness :
    (readJsonl c8Parse c8Content).1
        = ((splitLines c8Content).filter (fun l => l != "")).filterMap c8Parse
    ∧ skippedIn (runBatch okW "final" .undefined skipItems).trace 1 = true :=
  ⟨(c8_readJsonl_semantics.1 c8Parse c8Content).1,
    (c8_readJsonl_semantics.2 okW "final" .undefined skipItems 0 skipItem rfl rfl rfl
      (by rfl)).1⟩

theorem str_data_append (a b : String) : (a ++ b).data = a.data ++ b.data := by
  cases a
  cases b
  rfl

/-- C9: toSafeFilename returns a string of the same length whose k-th
character is the input's k-th character when it lies in
[A-Za-z0-9._-] and an underscore otherwise; consequently every file
base name derived from brand and name, with its .jpg suffix, contains
only characters of that class. -/
theorem c9_safe_filenames :
    (∀ s : String, (toSafeFilename s).length = s.length)
    ∧ (∀ (s : String) (k : Nat) (c : Char),
        (toSafeFilename s).data.get? k = some c →
        ∃ c0, s.data.get? k = some c0 ∧ c = (if isSafeChar c0 then c0 else '_'))
    ∧ (∀ (brand name : String) (c : Char),
        c ∈ (toSafeFilename (brand ++ "_" ++ name) ++ ".jpg").data →
        isSafeChar c = true) := by
  refine ⟨?_, ?_, ?_⟩
  · intro s
    cases s with
    | mk data =>
      show (data.map _).length = data.length
      exact List.length_map _ _
  · intro s k c h
    rw [show (toSafeFilename s).data
      = s.data.map (fun c => if isSafeChar c then c else '_') from rfl] at h
    rw [List.get?_map] at h
    cases hg : s.data.get? k with
    | none => rw [hg] at h; cases h
    | some c0 =>
      rw [hg] at h
      have h2 : some (if isSafeChar c0 then c0 else '_') = some c := h
      exact ⟨c0, rfl, (Option.some_inj.mp h2).symm⟩
  · intro brand name c hc
    rw [str_data_append] at hc
    rw [show (toSafeFilename (brand ++ "_" ++ name)).data
      = (brand ++ "_" ++ name).data.map (fun c => if isSafeChar c then c else '_')
      from rfl] at hc
    rcases List.mem_append.mp hc with hc | hc
    · obtain ⟨c0, -, rfl⟩ := List.mem_map.mp hc
      by_cases h0 : isSafeChar c0 = true
      · simp [h0]
      · rw [Bool.not_eq_true] at h0
        simp [h0]
        decide
    · have : ".jpg".data = ['.', 'j', 'p', 'g'] := rfl
      rw [this] at hc
      fin_cases hc <;> decide

/-- C9 witness: a concrete name with a space and a slash keeps its
length under sanitization, and the characters of a concrete derived
file name are all safe. -/
theorem c9_safe_filenames_witness :
    (toSafeFilename "Acme_No 5/x").length = ("Acme_No 5/x" : String).length
    ∧ isSafeChar 'A' = true :=
  ⟨c9_safe_filenames.1 "Acme_No 5/x",
    c9_safe_filenames.2.2 "A" "" 'A' (by decide)⟩

/-- C10: The limit guard treats a 0 or NaN limit exactly like no limit
(identical runs), and with an integer limit N at least 1 over a
null-free batch, a record position is reached exactly when strictly
fewer than N records before it were appended - failed records do not
count toward the limit, so the run attempts records until N have
succeeded or the input is exhausted. -/
theorem c10_limit_zero_nan_and_success_count (w : World) (fd : String) (items : List JV) :
    runBatch w fd (.num 0) items = runBatch w fd .undefined items
    ∧ runBatch w fd .nan items = runBatch w fd .undefined items
    ∧ (∀ N : Int, 1 ≤ N → hasNoNull items = true →
        ∀ j : Nat, 1 ≤ j → j ≤ items.length →
        (recordIn (runBatch w fd (.num N) items).trace j = true
          ↔ (appendsBelow (runBatch w fd (.num N) items).trace j : Int) < N)) := by
  refine ⟨?_, ?_, ?_⟩
  · exact runBatch_limit_congr w fd (.num 0) .undefined (fun q => by simp [limitHit]) items
  · exact runBatch_limit_congr w fd .nan .undefined (fun q => rfl) items
  · intro N hN hnn j hj1 hj2
    rw [runBatch_recordIn, runBatch_appendsBelow]
    constructor
    · intro hr
      have hbel := runLoop_record_below w fd N items 0 0 j (by omega) hr
      simp only [appendsBelow]
      omega
    · intro hb
      refine runLoop_record_of_below w fd N items 0 0 j hnn (by omega) (by omega) ?_
      simp only [appendsBelow] at hb
      omega

/-- C10 witness: limit 0 equals no limit on a concrete run, and with
limit 1 the reached-iff-fewer-successes equivalence evaluates at
record 1. -/
theorem c10_limit_zero_nan_and_success_count_witness :
    runBatch okW "final" (.num 0) twoItems = runBatch okW "final" .undefined twoItems
    ∧ (recordIn (runBatch okW "final" (.num 1) twoItems).trace 1 = true
        ↔ (appendsBelow (runBatch okW "final" (.num 1) twoItems).trace 1 : Int) < 1) := by
  have h := c10_limit_zero_nan_and_success_count okW "final" twoItems
  exact ⟨h.1, h.2.2 1 (by decide) (by rfl) 1 (by decide) (by decide)⟩
